import Mathlib

/-!
Verification of the `aether_roguelike` simulation core against its
specification.  The Python sources under `aether/` are shallowly embedded:
mutation becomes explicit state passing, Python ints become `Int`/`Nat`,
Python floats (used only as resistance fractions, fill probabilities and
random draws compared against constants) become `ℚ`, fallible operations
return `Except String`.  Python's `random.Random` is modelled as a
deterministic stream of naturals read off one value per draw; Python's
`int()` conversion (truncation toward zero) is `pyInt`.
-/

set_option maxRecDepth 10000

namespace Aether

/-! ## components.py : Stats -/

/-- Embeds `components.Stats` (dataclass fields; `resistances` is the
`Dict[str, float]` as an association list over `ℚ`). -/
structure Stats where
  max_hp : Int
  hp : Int
  max_mp : Int
  mp : Int
  atk : Int
  defense : Int
  evasion : Int
  speed : Int
  xp : Int := 0
  level : Int := 1
  resistances : List (String × ℚ) := []
  deriving DecidableEq, Repr

/-- Embeds `self.resistances.get(element, 0.0)`. -/
def resistLookup (rs : List (String × ℚ)) (element : String) : ℚ :=
  match rs.find? (fun p => p.1 == element) with
  | some p => p.2
  | none => 0

/-- Python's `int()` on a float/rational value: truncation toward zero. -/
def pyInt (q : ℚ) : Int :=
  q.num.tdiv q.den

/-- Embeds `Stats.take_damage`: `mitigated = int(amount * max(0.0, 1.0 - resist))`,
`self.hp = max(0, self.hp - mitigated)`, `return mitigated`.  Returns the
updated stats together with the returned value. -/
def Stats.take_damage (s : Stats) (amount : Int) (element : String) : Stats × Int :=
  let resist := resistLookup s.resistances element
  let mitigated := pyInt ((amount : ℚ) * max 0 (1 - resist))
  ({ s with hp := max 0 (s.hp - mitigated) }, mitigated)

/-! ## combat.py : gain_xp -/

/-- Embeds `combat.gain_xp` literally: add the reward to xp, compute the
threshold `10 + level * 5` and perform (at most) the single level-up the
`if` branch describes.  Returns the updated stats and whether a level-up
occurred. -/
def gain_xp (stats : Stats) (reward : Int) : Stats × Bool :=
  let stats1 := { stats with xp := stats.xp + reward }
  let threshold := 10 + stats1.level * 5
  if stats1.xp ≥ threshold then
    ({ stats1 with
        level := stats1.level + 1
        max_hp := stats1.max_hp + 4
        max_mp := stats1.max_mp + 2
        atk := stats1.atk + 1
        defense := stats1.defense + 1
        hp := stats1.max_hp + 4
        mp := stats1.max_mp + 2
        xp := stats1.xp - threshold }, true)
  else
    (stats1, false)

/-! ## components.py : StatusEffect, StatusTracker -/

/-- Embeds `components.StatusEffect` (default duration 6 from settings). -/
structure StatusEffect where
  name : String
  duration : Int := 6
  potency : Int := 0
  element : String := "physical"
  deriving DecidableEq, Repr

/-- The loop body of `StatusTracker.add`: walk the list, update the first
entry with the same name to the max of old/new duration and potency and
stop; append when no entry matches. -/
def addStatus : List StatusEffect → StatusEffect → List StatusEffect
  | [], effect => [effect]
  | existing :: rest, effect =>
    if existing.name = effect.name then
      { existing with
          duration := max existing.duration effect.duration
          potency := max existing.potency effect.potency } :: rest
    else
      existing :: addStatus rest effect

/-- Embeds `components.StatusTracker`. -/
structure StatusTracker where
  statuses : List StatusEffect := []
  deriving DecidableEq, Repr

/-- Embeds `StatusTracker.add`. -/
def StatusTracker.add (t : StatusTracker) (e : StatusEffect) : StatusTracker :=
  { t with statuses := addStatus t.statuses e }

/-- The names of the tracked effects, in order. -/
def namesOf (l : List StatusEffect) : List String :=
  l.map StatusEffect.name

/-! ## components.py : Item, Inventory -/

/-- Embeds `components.Item`. -/
structure Item where
  name : String
  slot : Option String := none
  stackable : Bool := false
  quantity : Int := 1
  identified : Bool := false
  cursed : Bool := false
  durability : Option Int := none
  power : Int := 0
  element : String := "physical"
  description : String := ""
  deriving DecidableEq, Repr

/-- Embeds `components.Inventory`. -/
structure Inventory where
  width : Nat
  height : Nat
  items : List Item := []
  deriving DecidableEq, Repr

/-- Embeds `Inventory.capacity`. -/
def Inventory.capacity (inv : Inventory) : Nat :=
  inv.width * inv.height

/-- The stacking scan of `Inventory.add`: find the first stored item with
the same name and identified flag and bump its quantity; `none` when no
stored item matches.  Note the source checks only these two fields of the
stored entry, not its `stackable` flag. -/
def addStack : List Item → Item → Option (List Item)
  | [], _ => none
  | stored :: rest, item =>
    if stored.name = item.name ∧ stored.identified = item.identified then
      some ({ stored with quantity := stored.quantity + item.quantity } :: rest)
    else
      (addStack rest item).map (stored :: ·)

/-- Embeds `Inventory.add`: when the incoming item is stackable, try the
stacking scan first (returning `true` on a merge with no capacity check);
otherwise append iff the entry count is below capacity. -/
def Inventory.add (inv : Inventory) (item : Item) : Inventory × Bool :=
  if item.stackable then
    match addStack inv.items item with
    | some items2 => ({ inv with items := items2 }, true)
    | none =>
      if inv.items.length ≥ inv.capacity then (inv, false)
      else ({ inv with items := inv.items ++ [item] }, true)
  else
    if inv.items.length ≥ inv.capacity then (inv, false)
    else ({ inv with items := inv.items ++ [item] }, true)

/-- A concrete `Stats` record (mirrors the test fixture `_make_stats`). -/
def statsFixture : Stats :=
  { max_hp := 20, hp := 20, max_mp := 5, mp := 5, atk := 8, defense := 2,
    evasion := 5, speed := 90, resistances := [("fire", 1/2)] }

/-- A stats record with 5 HP and no resistances. -/
def statsLowHp : Stats :=
  { max_hp := 20, hp := 5, max_mp := 5, mp := 5, atk := 8, defense := 2,
    evasion := 5, speed := 90 }

/-! ### Status merge (C6) -/

/-- The updated entry `addStatus` writes over the first name match. -/
def mergeEffect (old e : StatusEffect) : StatusEffect :=
  { old with duration := max old.duration e.duration, potency := max old.potency e.potency }

/-- A tracker holding one bleed effect. -/
def trackerFixture : StatusTracker :=
  { statuses := [{ name := "bleed", duration := 2, potency := 3, element := "physical" }] }

/-- The re-applied bleed effect. -/
def bleedAgain : StatusEffect :=
  { name := "bleed", duration := 6, potency := 1, element := "physical" }

/-! ### Inventory stacking (C9, C10) -/

/-- Total quantity held, summed over the entries. -/
def qtySum (l : List Item) : Int :=
  (l.map Item.quantity).sum

/-- A 2-slot inventory holding an identified potion stack and a sword. -/
def invFixture : Inventory :=
  { width := 2, height := 1,
    items := [{ name := "potion", stackable := true, quantity := 2, identified := true },
              { name := "sword" }] }

/-- Another potion like the stored stack. -/
def potionItem : Item :=
  { name := "potion", stackable := true, quantity := 1, identified := true }

/-- A full 1-slot inventory holding a potion stack. -/
def invFull : Inventory :=
  { width := 1, height := 1,
    items := [{ name := "potion", stackable := true, quantity := 2, identified := true }] }

/-- The stored sword is not stackable. -/
def invSword : Inventory :=
  { width := 1, height := 1, items := [{ name := "sword" }] }

/-- A stackable item with the sword's name and identified flag. -/
def swordCopy : Item :=
  { name := "sword", stackable := true }

/-! ## mapgen.py data model and path.py pathfinding (claims C3, C7) -/

/-- Embeds `mapgen.Tile` (an `IntEnum` in the source). -/
inductive Tile where
  | wall | floor | door | lockedDoor | stairsUp | stairsDown | acid | lava | trap
  deriving DecidableEq, Repr

/-- A tile kind counted walkable: `np.isin(tiles, [FLOOR, DOOR, LOCKED_DOOR,
STAIRS_UP, STAIRS_DOWN, ACID, LAVA, TRAP])` from `MapData.walkable`. -/
def Tile.walkable (t : Tile) : Bool :=
  t == .floor || t == .door || t == .lockedDoor || t == .stairsUp || t == .stairsDown ||
    t == .acid || t == .lava || t == .trap

/-- Embeds `mapgen.MapData`; the tile grid is row-major (`tiles[y][x]`),
`door_keys` is the door-to-key `Dict` as an association list. -/
structure MapData where
  width : Nat
  height : Nat
  tiles : List (List Tile)
  start : Nat × Nat
  stairs_up : Nat × Nat
  stairs_down : Nat × Nat
  locked_doors : List (Nat × Nat) := []
  key_positions : List (Nat × Nat) := []
  door_keys : List ((Nat × Nat) × (Nat × Nat)) := []
  hazards : List (Nat × Nat) := []
  trap_hints : List (Nat × Nat) := []
  deriving DecidableEq, Repr

/-- Reads `tiles[y, x]` (all source reads are in bounds; out-of-bounds
reads default to wall). -/
def tileAt (tiles : List (List Tile)) (x y : Nat) : Tile :=
  (tiles.getD y []).getD x Tile.wall

/-- Embeds `MapData.tile_at`. -/
def MapData.tile_at (m : MapData) (x y : Nat) : Tile :=
  tileAt m.tiles x y

/-- Pointwise view of the `MapData.walkable` boolean array. -/
def MapData.walkableAt (m : MapData) (x y : Nat) : Bool :=
  (m.tile_at x y).walkable

/-!
`path.astar_path` and `path.dijkstra_flow` hand the walkability grid to
`tcod.path.SimpleGraph(cost, cardinal=2, diagonal=3)` and a `Pathfinder`.
tcod is external to the repository, so it is modelled from its documented
contract: the pathfinder computes, for each cell, the least cost of an
8-neighbour path from a root (entering a cell cardinally costs 2, diagonally
costs 3, and only walkable cells may be entered); `path_to(goal)` follows the
distance gradient from the goal back to the root and returns the whole path,
root and goal inclusive, or just `[goal]` when the goal is unreachable.
The distance field is computed here by Bellman-Ford style rounds of
relaxation (`width * height` rounds reach the fixpoint, which equals the
Dijkstra distances tcod computes); `none` is the unreachable sentinel.
-/

/-- Minimum of two distance values where `none` is infinity. -/
def optMin : Option Nat → Option Nat → Option Nat
  | none, b => b
  | some a, none => some a
  | some a, some b => some (min a b)

/-- Reads the distance field at `(x, y)`; out of bounds is infinity. -/
def fGet (f : List (List (Option Nat))) (x y : Nat) : Option Nat :=
  (f.getD y []).getD x none

def nbrCand (f : List (List (Option Nat))) (x y cost : Nat) : Option Nat :=
  (fGet f x y).map (· + cost)

/-- The eight neighbour coordinates of a cell (natural-number subtraction
clamps at the lower border; the clamped duplicates are cardinal cells whose
candidate values never beat the true candidates, so the minimum and the
reachable set are unaffected). -/
def nbrCells (x y : Nat) : List (Nat × Nat) :=
  [(x+1, y), (x-1, y), (x, y+1), (x, y-1), (x+1, y+1), (x+1, y-1), (x-1, y+1), (x-1, y-1)]

/-- Cost of entering from a neighbour: 3 when both coordinates differ
(diagonal), else 2 (cardinal), as `SimpleGraph(cardinal=2, diagonal=3)`. -/
def cellCost (x y : Nat) (c : Nat × Nat) : Nat :=
  if c.1 ≠ x ∧ c.2 ≠ y then 3 else 2

def relaxCands (f : List (List (Option Nat))) (x y : Nat) : List (Option Nat) :=
  (nbrCells x y).map fun c => nbrCand f c.1 c.2 (cellCost x y c)

def relaxAt (walk : Nat → Nat → Bool) (f : List (List (Option Nat))) (x y : Nat) : Option Nat :=
  if walk x y then (relaxCands f x y).foldr optMin (fGet f x y) else fGet f x y

def relaxStep (w h : Nat) (walk : Nat → Nat → Bool) (f : List (List (Option Nat))) :
    List (List (Option Nat)) :=
  (List.range h).map fun y => (List.range w).map fun x => relaxAt walk f x y

def fieldInit (w h : Nat) (roots : List (Nat × Nat)) : List (List (Option Nat)) :=
  (List.range h).map fun y => (List.range w).map fun x => if (x, y) ∈ roots then some 0 else none

/-- The pathfinder distance field from the given roots. -/
def distField (w h : Nat) (walk : Nat → Nat → Bool) (roots : List (Nat × Nat)) :
    List (List (Option Nat)) :=
  (relaxStep w h walk)^[w * h] (fieldInit w h roots)

/-- The candidate with the least field value (first wins ties). -/
def pickMin : List ((Nat × Nat) × Nat) → Option ((Nat × Nat) × Nat)
  | [] => none
  | c :: rest =>
    match pickMin rest with
    | none => some c
    | some b => if b.2 < c.2 then some b else some c

/-- One gradient step: the neighbour with the least field value, when it
strictly improves on the current cell. -/
def descend (f : List (List (Option Nat))) (x y : Nat) : Option (Nat × Nat) :=
  let cands := (nbrCells x y).filterMap fun c => (fGet f c.1 c.2).map fun v => (c, v)
  match pickMin cands, fGet f x y with
  | some b, some cur => if b.2 < cur then some b.1 else none
  | _, _ => none

/-- Gradient descent from the goal down to the root (field value 0). -/
def walkBack (f : List (List (Option Nat))) : Nat → Nat → Nat → List (Nat × Nat)
  | 0, x, y => [(x, y)]
  | fuel+1, x, y =>
    if fGet f x y = some 0 then [(x, y)]
    else
      match descend f x y with
      | some c => (x, y) :: walkBack f fuel c.1 c.2
      | none => [(x, y)]

/-- Embeds `path.astar_path`: the single-root pathfinder distance field,
then `path_to(goal)` as gradient descent; `[goal]` when unreachable. -/
def astar_path (m : MapData) (start goal : Nat × Nat) : List (Nat × Nat) :=
  let f := distField m.width m.height m.walkableAt [start]
  match fGet f goal.1 goal.2 with
  | none => [goal]
  | some _ => (walkBack f (m.width * m.height + 1) goal.1 goal.2).reverse

/-- The all-floor (fully open) map of the given size. -/
def openMap (w h : Nat) : MapData :=
  { width := w, height := h,
    tiles := List.replicate h (List.replicate w Tile.floor),
    start := (0, 0), stairs_up := (0, 0), stairs_down := (0, 0) }

/-! Arithmetic layer -/

def natDist (a b : Nat) : Nat := max a b - min a b

def cfVal (rx ry x y : Nat) : Nat :=
  2 * max (natDist x rx) (natDist y ry) + min (natDist x rx) (natDist y ry)

def stepToward (r v : Nat) : Nat := if v < r then v + 1 else if r < v then v - 1 else v

def stepCost (rx ry x y : Nat) : Nat := if x ≠ rx ∧ y ≠ ry then 3 else 2

/-! Lower bound: every field value dominates the closed-form distance -/

def LowerB (rx ry : Nat) (f : List (List (Option Nat))) : Prop :=
  ∀ x y v, fGet f x y = some v → cfVal rx ry x y ≤ v

/-! Reachability in the embedded 8-neighbour cost graph -/

/-- Bounded-depth reachability in the same 8-neighbour graph the modelled
pathfinder searches: a path of at most `n` steps from the root, entering
walkable in-bounds cells only.  Depth `width * height` decides plain
reachability, since a shortest path never revisits a cell. -/
def reachesB (w h : Nat) (walk : Nat → Nat → Bool) (root : Nat × Nat) :
    Nat → Nat × Nat → Bool
  | 0, c => c == root
  | n+1, c =>
    c == root ||
      (decide (c.1 < w) && decide (c.2 < h) && walk c.1 c.2 &&
        (nbrCells c.1 c.2).any fun p => reachesB w h walk root n p)

/-- Embeds `utils.manhattan` (on the natural grid coordinates). -/
def manhattan (a b : Nat × Nat) : Nat :=
  natDist a.1 b.1 + natDist a.2 b.2

/-- A 3 by 1 map whose middle cell is a wall: the two floor cells cannot
reach each other. -/
def wallMap : MapData :=
  { width := 3, height := 1,
    tiles := [[Tile.floor, Tile.wall, Tile.floor]],
    start := (0, 0), stairs_up := (0, 0), stairs_down := (2, 0) }

/-! ## random.Random model and mapgen.py generator -/

/-- Python's `random.Random` modelled as a deterministic stream of naturals
with a read index; every draw consumes one stream element.  `Random(seed)`
(a Mersenne Twister) is abstracted as `pyRandomSeeded`, an
unspecified-but-deterministic stream derived from the seed, which is all
the determinism claims depend on. -/
structure PyRandom where
  stream : Nat → Nat
  idx : Nat

/-- Draw one raw stream value. -/
def PyRandom.next (r : PyRandom) : Nat × PyRandom :=
  (r.stream r.idx, { r with idx := r.idx + 1 })

/-- Models `rng.randint(a, b)`: a value in `[a, b]` (the source only calls
it with `a ≤ b`). -/
def PyRandom.randint (r : PyRandom) (a b : Nat) : Nat × PyRandom :=
  let (v, r2) := r.next
  (a + v % (b - a + 1), r2)

/-- Models `rng.random()`: a draw in `[0, 1)` represented in thousandths
(the value is `⌊random() * 1000⌋`; the source only ever compares these
draws against the constants 0.5, 0.45 and 0.3, so thousandths are exact). -/
def PyRandom.randFloat (r : PyRandom) : Nat × PyRandom :=
  let (v, r2) := r.next
  (v % 1000, r2)

/-- Models `rng.randrange(n)`: a value in `[0, n)` (the source only calls
it with `n > 0`). -/
def PyRandom.randrange (r : PyRandom) (n : Nat) : Nat × PyRandom :=
  let (v, r2) := r.next
  (v % n, r2)

/-- Swap two positions of a list (both in range at every call site). -/
def swapList {α : Type} (l : List α) (i j : Nat) : List α :=
  match l.get? i, l.get? j with
  | some a, some b => (l.set i b).set j a
  | _, _ => l

/-- The Fisher-Yates loop of `rng.shuffle`: for `i` from `len - 1` down
to 1, draw `j` below `i + 1` and swap positions `i` and `j`. -/
def shuffleAux {α : Type} : Nat → List α → PyRandom → List α × PyRandom
  | 0, l, r => (l, r)
  | k+1, l, r =>
    let (v, r2) := r.next
    let j := v % (k + 2)
    shuffleAux k (swapList l (k+1) j) r2

/-- Models `rng.shuffle(l)`. -/
def PyRandom.shuffle {α : Type} (r : PyRandom) (l : List α) : List α × PyRandom :=
  let (l2, r2) := shuffleAux (l.length - 1) l r
  (l2, r2)

/-- Writes `tiles[y, x] = t`. -/
def setTile (tiles : List (List Tile)) (x y : Nat) (t : Tile) : List (List Tile) :=
  tiles.set y ((tiles.getD y []).set x t)

/-- Embeds `utils.Rect`. -/
structure Rect where
  x : Nat
  y : Nat
  w : Nat
  h : Nat
  deriving DecidableEq, Repr

/-- Embeds `Rect.center`. -/
def Rect.center (r : Rect) : Nat × Nat :=
  (r.x + r.w / 2, r.y + r.h / 2)

/-- Embeds `Rect.intersect`. -/
def Rect.intersect (a b : Rect) : Bool :=
  !(decide (b.x + b.w ≤ a.x) || decide (a.x + a.w ≤ b.x)
    || decide (b.y + b.h ≤ a.y) || decide (a.y + a.h ≤ b.y))

/-- Embeds `utils.flood_fill`'s BFS: pop the queue front, push unvisited
walkable unblocked in-bounds cardinal neighbours (marking them visited at
push time, as the source does).  Fuel bounds the loop; `width * height + 1`
pops always suffice because only unvisited cells are ever pushed. -/
def floodAux (walk : Nat → Nat → Bool) (width height : Nat)
    (blocked : List (Nat × Nat)) :
    Nat → List (Nat × Nat) → List (Nat × Nat) → List (Nat × Nat)
  | 0, _, visited => visited
  | _+1, [], visited => visited
  | fuel+1, (x, y) :: q, visited =>
    let step := fun (st : List (Nat × Nat) × List (Nat × Nat)) (c : Nat × Nat) =>
      if c.1 < width ∧ c.2 < height ∧ c ∉ st.2 ∧ c ∉ blocked ∧ walk c.1 c.2 then
        (st.1 ++ [c], st.2 ++ [c])
      else st
    let nbrs := [(x + 1, y)] ++ (if 1 ≤ x then [(x - 1, y)] else [])
      ++ [(x, y + 1)] ++ (if 1 ≤ y then [(x, y - 1)] else [])
    let st2 := nbrs.foldl step (q, visited)
    floodAux walk width height blocked fuel st2.1 st2.2

/-- Embeds `utils.flood_fill`.  The source returns a `set`; here the visit
list in BFS push order stands for it (`list(set)` enumeration order in
`_pick_key_position` is an implementation artefact of Python's set hashing
and is modelled as this BFS order; only which cells are members matters to
every property proved here). -/
def flood_fill (walk : Nat → Nat → Bool) (width height : Nat) (start : Nat × Nat)
    (blocked : List (Nat × Nat)) : List (Nat × Nat) :=
  if start.1 < width ∧ start.2 < height ∧ walk start.1 start.2 ∧ start ∉ blocked then
    floodAux walk width height blocked (width * height + 1) [start] [start]
  else []

/-- Embeds `MapData.reachable`. -/
def MapData.reachable (m : MapData) (start : Nat × Nat) (blocked : List (Nat × Nat)) :
    List (Nat × Nat) :=
  flood_fill m.walkableAt m.width m.height start blocked

/-- Carves a room rectangle to floor. -/
def fillRect (tiles : List (List Tile)) (rc : Rect) : List (List Tile) :=
  (List.range rc.h).foldl
    (fun t dy => (List.range rc.w).foldl
      (fun t2 dx => setTile t2 (rc.x + dx) (rc.y + dy) Tile.floor) t)
    tiles

/-- Embeds `MapGenerator._carve_h`. -/
def carveH (tiles : List (List Tile)) (x1 x2 y : Nat) : List (List Tile) :=
  (List.range (max x1 x2 + 1 - min x1 x2)).foldl
    (fun t i => setTile t (min x1 x2 + i) y Tile.floor) tiles

/-- Embeds `MapGenerator._carve_v`. -/
def carveV (tiles : List (List Tile)) (y1 y2 x : Nat) : List (List Tile) :=
  (List.range (max y1 y2 + 1 - min y1 y2)).foldl
    (fun t i => setTile t x (min y1 y2 + i) Tile.floor) tiles

/-- The room-placement rejection loop of `_generate_rooms`: while fewer
than 12 rooms are placed and fewer than 200 attempts failed, draw a
candidate and keep it unless it intersects a placed room.  The loop runs at
most 212 iterations (each one either places a room or counts an attempt),
which the fuel covers. -/
def placeRooms (width height : Nat) :
    Nat → List Rect → Nat → List (List Tile) → PyRandom
      → List Rect × List (List Tile) × PyRandom
  | 0, rooms, _, tiles, r => (rooms, tiles, r)
  | fuel+1, rooms, attempts, tiles, r =>
    if rooms.length < 12 ∧ attempts < 200 then
      let (w, r1) := r.randint 5 10
      let (h, r2) := r1.randint 5 10
      let (x, r3) := r2.randint 1 (width - w - 1)
      let (y, r4) := r3.randint 1 (height - h - 1)
      let newRoom : Rect := ⟨x, y, w, h⟩
      if rooms.any (fun room => newRoom.intersect room) then
        placeRooms width height fuel rooms (attempts + 1) tiles r4
      else
        placeRooms width height fuel (rooms ++ [newRoom]) attempts
          (fillRect tiles newRoom) r4
    else
      (rooms, tiles, r)

/-- Embeds the closure `carve_corridor`: an L-shaped corridor whose bend
axis is a coin flip from the seeded stream. -/
def carveCorridor (tiles : List (List Tile)) (a b : Nat × Nat) (r : PyRandom) :
    List (List Tile) × PyRandom :=
  let (q, r2) := r.randFloat
  if q < 500 then
    (carveV (carveH tiles a.1 b.1 a.2) a.2 b.2 b.1, r2)
  else
    (carveH (carveV tiles a.2 b.2 a.1) a.1 b.1 b.2, r2)

/-- The corridor loop: connect consecutive room centers. -/
def carveCorridors (tiles : List (List Tile)) (r : PyRandom) :
    List Rect → List (List Tile) × PyRandom
  | [] => (tiles, r)
  | [_] => (tiles, r)
  | a :: b :: rest =>
    let (t2, r2) := carveCorridor tiles a.center b.center r
    carveCorridors t2 r2 (b :: rest)

/-- `max(rooms, key=lambda r: manhattan(r.center, start))`: Python's `max`
keeps the first element attaining the maximum. -/
def maxRoomByDist (rooms : List Rect) (start : Nat × Nat) : Rect :=
  match rooms with
  | [] => ⟨0, 0, 0, 0⟩
  | r0 :: rest =>
    rest.foldl
      (fun best rc =>
        if manhattan best.center start < manhattan rc.center start then rc else best)
      r0

/-- Embeds `MapGenerator._generate_rooms`: place rooms, carve corridors
between consecutive centers, fail when no room was placed, put the up
stairs at the first room's center (the start) and the down stairs at the
center farthest from it by Manhattan distance. -/
def genRooms (width height : Nat) (r : PyRandom) : Except String (MapData × PyRandom) :=
  let tiles0 := List.replicate height (List.replicate width Tile.wall)
  let pr := placeRooms width height 212 [] 0 tiles0 r
  let rooms := pr.1
  let cc := carveCorridors pr.2.1 pr.2.2 rooms
  if rooms = [] then
    Except.error "Failed to generate rooms"
  else
    let start := (rooms.headD ⟨0, 0, 0, 0⟩).center
    let stairsDown := (maxRoomByDist rooms start).center
    let tiles2 := setTile cc.1 start.1 start.2 Tile.stairsUp
    let tiles3 := setTile tiles2 stairsDown.1 stairsDown.2 Tile.stairsDown
    Except.ok
      ({ width := width, height := height, tiles := tiles3,
         start := start, stairs_up := start, stairs_down := stairsDown }, cc.2)

/-- Embeds `MapGenerator._count_neighbours`: walls among the 8 ring cells
(only called on interior cells, where every read is in bounds). -/
def countNeighbours (tiles : List (List Tile)) (x y : Nat) : Nat :=
  let isW := fun (a b : Nat) => if tileAt tiles a b = Tile.wall then 1 else 0
  isW (x - 1) (y - 1) + isW x (y - 1) + isW (x + 1) (y - 1)
    + isW (x - 1) y + isW (x + 1) y
    + isW (x - 1) (y + 1) + isW x (y + 1) + isW (x + 1) (y + 1)

/-- Embeds `MapGenerator._smooth`: one majority-rule pass over the interior
(reading the old grid, as the source's copy does). -/
def smoothTiles (width height : Nat) (tiles : List (List Tile)) : List (List Tile) :=
  (List.range height).map fun y => (List.range width).map fun x =>
    if 1 ≤ x ∧ x + 1 < width ∧ 1 ≤ y ∧ y + 1 < height then
      let n := countNeighbours tiles x y
      if 4 < n then Tile.wall
      else if n < 4 then Tile.floor
      else tileAt tiles x y
    else tileAt tiles x y

/-- The interior cells in row-major order, as the fill loop of
`_generate_caves` visits them. -/
def interiorCells (width height : Nat) : List (Nat × Nat) :=
  ((List.range (height - 2)).map fun j =>
    (List.range (width - 2)).map fun i => (i + 1, j + 1)).flatten

/-- The random-noise fill of `_generate_caves`: each interior cell becomes
floor when `random() > 0.45`. -/
def cavesFillLoop : List (Nat × Nat) → List (List Tile) → PyRandom
    → List (List Tile) × PyRandom
  | [], t, r => (t, r)
  | (x, y) :: rest, t, r =>
    let (q, r2) := r.randFloat
    cavesFillLoop rest (setTile t x y (if 450 < q then Tile.floor else Tile.wall)) r2

/-- The filled grid before smoothing. -/
def cavesFilled (width height : Nat) (r : PyRandom) : List (List Tile) × PyRandom :=
  cavesFillLoop (interiorCells width height)
    (List.replicate height (List.replicate width Tile.wall)) r

/-- `np.argwhere(tiles == Tile.FLOOR)` with coordinates flipped to (x, y):
row-major floor positions. -/
def floorPositions (width height : Nat) (tiles : List (List Tile)) : List (Nat × Nat) :=
  ((List.range height).map fun y =>
    (List.range width).filterMap fun x =>
      if tileAt tiles x y = Tile.floor then some (x, y) else none).flatten

/-- Embeds `MapGenerator._generate_caves`: noise fill, five smoothing
passes, fail if no floor remains, restrict to the component of a random
floor cell, stairs at that cell and another random floor cell. -/
def genCaves (width height : Nat) (r : PyRandom) : Except String (MapData × PyRandom) :=
  let fl := cavesFilled width height r
  let tiles1 := smoothTiles width height
    (smoothTiles width height (smoothTiles width height
      (smoothTiles width height (smoothTiles width height fl.1))))
  let floors := floorPositions width height tiles1
  if floors = [] then
    Except.error "No floor tiles in cave generation"
  else
    let (i, r2) := fl.2.randrange floors.length
    let start := floors.getD i (0, 0)
    let reach := flood_fill (fun x y => tileAt tiles1 x y == Tile.floor)
      width height start []
    let tiles2 := (List.range height).map fun y => (List.range width).map fun x =>
      if (x, y) ∈ reach then tileAt tiles1 x y else Tile.wall
    let floors2 := floorPositions width height tiles2
    let (j, r3) := r2.randrange floors2.length
    let endc := floors2.getD j (0, 0)
    let tiles3 := setTile tiles2 start.1 start.2 Tile.stairsUp
    let tiles4 := setTile tiles3 endc.1 endc.2 Tile.stairsDown
    Except.ok
      ({ width := width, height := height, tiles := tiles4,
         start := start, stairs_up := start, stairs_down := endc }, r3)

/-- Walkable cells as `np.argwhere(data.walkable)[:, ::-1]` lists them:
row-major (x, y) pairs. -/
def walkablePositions (m : MapData) : List (Nat × Nat) :=
  ((List.range m.height).map fun y =>
    (List.range m.width).filterMap fun x =>
      if m.walkableAt x y then some (x, y) else none).flatten

/-- Embeds `MapGenerator._ring_positions`: the in-bounds 8-ring of a cell,
in the source's dx-major loop order. -/
def ringPositions (width height x y : Nat) : List (Nat × Nat) :=
  ((if 1 ≤ x then
      (if 1 ≤ y then [(x - 1, y - 1)] else [])
        ++ [(x - 1, y)]
        ++ (if y + 1 < height then [(x - 1, y + 1)] else [])
    else [])
    ++ (if 1 ≤ y then [(x, y - 1)] else [])
    ++ (if y + 1 < height then [(x, y + 1)] else [])
    ++ (if x + 1 < width then
      (if 1 ≤ y then [(x + 1, y - 1)] else [])
        ++ [(x + 1, y)]
        ++ (if y + 1 < height then [(x + 1, y + 1)] else [])
    else []))

/-- The hazard-scatter loop: for each chosen position still holding floor,
flip acid/lava and record the hazard. -/
def hazardLoop : List (Nat × Nat) → List (List Tile) → List (Nat × Nat) → PyRandom
    → List (List Tile) × List (Nat × Nat) × PyRandom
  | [], tiles, hz, r => (tiles, hz, r)
  | (x, y) :: rest, tiles, hz, r =>
    if tileAt tiles x y = Tile.floor then
      let (q, r2) := r.randFloat
      let t := if q < 500 then Tile.acid else Tile.lava
      hazardLoop rest (setTile tiles x y t) (hz ++ [(x, y)]) r2
    else
      hazardLoop rest tiles hz r

/-- The trap-placement loop: turn each candidate into a trap and record its
ring of hint cells. -/
def trapLoop (width height : Nat) :
    List (Nat × Nat) → List (List Tile) → List (Nat × Nat)
      → List (List Tile) × List (Nat × Nat)
  | [], tiles, hints => (tiles, hints)
  | (x, y) :: rest, tiles, hints =>
    trapLoop width height rest (setTile tiles x y Tile.trap)
      (hints ++ ringPositions width height x y)

/-- The chokepoint scan: in row-major interior order, convert a floor cell
with at least two wall and two floor cardinal neighbours into a door,
reading the grid as already mutated by earlier conversions (as the
source's in-place loop does). -/
def doorScan : List (Nat × Nat) → List (List Tile) → List (Nat × Nat)
    → List (List Tile) × List (Nat × Nat)
  | [], tiles, doors => (tiles, doors)
  | (x, y) :: rest, tiles, doors =>
    if tileAt tiles x y = Tile.floor then
      let nbrs := [tileAt tiles (x + 1) y, tileAt tiles (x - 1) y,
                   tileAt tiles x (y + 1), tileAt tiles x (y - 1)]
      if 2 ≤ nbrs.count Tile.wall ∧ 2 ≤ nbrs.count Tile.floor then
        doorScan rest (setTile tiles x y Tile.door) (doors ++ [(x, y)])
      else
        doorScan rest tiles doors
    else
      doorScan rest tiles doors

/-- Embeds `MapGenerator._pick_key_position`: shuffle the reachable cells
and take the first one that is not the start position, falling back to the
head of the shuffled list. -/
def pickKeyPosition (reachList : List (Nat × Nat)) (startPos : Nat × Nat) (r : PyRandom) :
    Option (Nat × Nat) × PyRandom :=
  if reachList = [] then (none, r)
  else
    let (shuffled, r2) := r.shuffle reachList
    match shuffled.find? (fun pos => pos ≠ startPos) with
    | some pos => (some pos, r2)
    | none => (some (shuffled.getD 0 (0, 0)), r2)

/-- Embeds `MapGenerator._trace_back`: the straight-line walk from the
found cell toward the start, stepping both axes at once; fuel covers the
Chebyshev distance. -/
def traceBack : Nat → Nat → Nat → Nat → Nat → List (Nat × Nat)
  | 0, _, _, _, _ => []
  | fuel+1, x, y, gx, gy =>
    if (x, y) = (gx, gy) then []
    else
      let x2 := if x < gx then x + 1 else if gx < x then x - 1 else x
      let y2 := if y < gy then y + 1 else if gy < y then y - 1 else y
      (x, y) :: traceBack fuel x2 y2 gx gy

/-- Turns the wall cells on a traced path into floor. -/
def carvePath (tiles : List (List Tile)) (path : List (Nat × Nat)) : List (List Tile) :=
  path.foldl
    (fun t c => if tileAt t c.1 c.2 = Tile.wall then setTile t c.1 c.2 Tile.floor else t)
    tiles

/-- Embeds `MapGenerator._ensure_connection`: breadth-first from the down
stairs through non-wall tiles; at the first cell already reachable from the
start, carve the straight traced line from it toward the start.  Matches
the source exactly, including marking cells visited only when popped and
never re-checking the repaired reachability. -/
def ensureAux (width height : Nat) (reach : List (Nat × Nat)) (startPos : Nat × Nat) :
    Nat → List (Nat × Nat) → List (Nat × Nat) → List (List Tile) → List (List Tile)
  | 0, _, _, tiles => tiles
  | _+1, [], _, tiles => tiles
  | fuel+1, (x, y) :: q, visited, tiles =>
    if (x, y) ∈ reach then
      carvePath tiles (traceBack (width + height + 1) x y startPos.1 startPos.2)
    else
      let visited2 := visited ++ [(x, y)]
      let push := fun (qq : List (Nat × Nat)) (c : Nat × Nat) =>
        if c.1 < width ∧ c.2 < height ∧ c ∉ visited2 ∧ tileAt tiles c.1 c.2 ≠ Tile.wall then
          qq ++ [c]
        else qq
      let nbrs := [(x + 1, y)] ++ (if 1 ≤ x then [(x - 1, y)] else [])
        ++ [(x, y + 1)] ++ (if 1 ≤ y then [(x, y - 1)] else [])
      ensureAux width height reach startPos fuel (nbrs.foldl push q) visited2 tiles

/-- Embeds `MapGenerator._post_process`: hazard scatter, traps with hint
rings, chokepoint doors, one locked door with a key reachable around it,
and the final stairs-reachability check with `_ensure_connection` repair. -/
def postProcess (m : MapData) (r : PyRandom) : MapData × PyRandom :=
  let wps := walkablePositions m
  let (wpsSh, r1) := r.shuffle wps
  let hazardsSlice := wpsSh.take (max 3 (wps.length / 40))
  let hzRes := hazardLoop hazardsSlice m.tiles [] r1
  let tilesH := hzRes.1
  let trapCands := wpsSh.filter (fun c => tileAt tilesH c.1 c.2 = Tile.floor)
  let trapRes := trapLoop m.width m.height
    (trapCands.take (trapCands.length / 30 + 1)) tilesH []
  let tilesT := trapRes.1
  let scanOrder := interiorCells m.width m.height
  let dsRes := doorScan scanOrder tilesT []
  let tilesD := dsRes.1
  let doors := dsRes.2
  let afterLock :=
    if doors = [] then (tilesD, ([] : List (Nat × Nat)), ([] : List (Nat × Nat)),
      ([] : List ((Nat × Nat) × (Nat × Nat))), hzRes.2.2)
    else
      let (i, r3) := hzRes.2.2.randrange doors.length
      let locked := doors.getD i (0, 0)
      let tilesL := setTile tilesD locked.1 locked.2 Tile.lockedDoor
      let mL := { m with tiles := tilesL }
      let accessible := mL.reachable m.start [locked]
      let (keyPos, r4) := pickKeyPosition accessible m.start r3
      match keyPos with
      | some key => (tilesL, [locked], [key], [(locked, key)], r4)
      | none => (tilesL, [locked], [], [], r4)
  let tilesL := afterLock.1
  let lockedDoors := afterLock.2.1
  let mAfter : MapData :=
    { m with
        tiles := tilesL
        locked_doors := lockedDoors
        key_positions := afterLock.2.2.1
        door_keys := afterLock.2.2.2.1
        hazards := hzRes.2.1
        trap_hints := trapRes.2 }
  let reach := mAfter.reachable mAfter.start lockedDoors
  if mAfter.stairs_down ∈ reach then
    (mAfter, afterLock.2.2.2.2)
  else
    let tilesFixed := ensureAux mAfter.width mAfter.height reach mAfter.start
      (mAfter.width * mAfter.height * 8 + 1) [mAfter.stairs_down] [] mAfter.tiles
    ({ mAfter with tiles := tilesFixed }, afterLock.2.2.2.2)

/-- Embeds `MapGenerator.generate`: caves or rooms base map, then the
shared post-processing. -/
def MapGenerator.generate (width height : Nat) (r : PyRandom) (layout : String) :
    Except String (MapData × PyRandom) :=
  match (if layout = "caves" then genCaves width height r else genRooms width height r) with
  | Except.error e => Except.error e
  | Except.ok (base, r2) => Except.ok (postProcess base r2)

/-- The modelled `random.Random(seed)` stream (see `PyRandom`). -/
def pyRandomSeeded (seed : Int) : PyRandom :=
  ⟨fun n => (seed.natAbs + n + 1) * 2654435761 % 4294967296, 0⟩

/-- Embeds `mapgen.generate_floor`: seed the stream with
`seed + floor * 97`, build the default-size generator and run it. -/
def generate_floor (seed floorIdx : Int) (layout : String) : Except String MapData :=
  let rng := pyRandomSeeded (seed + floorIdx * 97)
  (MapGenerator.generate 48 32 rng layout).map Prod.fst

/-! ## ai.py -/

/-- Embeds `components.Position`. -/
structure Position where
  x : Nat
  y : Nat
  floor : Nat := 0
  deriving DecidableEq, Repr

/-- Embeds `ai.AIAction`. -/
structure AIAction where
  type : String
  target : Option (Nat × Nat) := none
  payload : Option (List (String × Int)) := none
  deriving DecidableEq, Repr

/-- Embeds `path.dijkstra_flow`: the multi-root pathfinder distance field;
`none` stands for the `np.inf` of unreachable cells. -/
def dijkstra_flow (m : MapData) (goals : List (Nat × Nat)) : List (List (Option Nat)) :=
  distField m.width m.height m.walkableAt goals

/-- `<` on flow values where `none` is infinity. -/
def ltOpt : Option Nat → Option Nat → Bool
  | some a, some b => decide (a < b)
  | some _, none => true
  | none, _ => false

/-- A Python list index: `IndexError` when out of range. -/
def pyIndex {α : Type} (l : List α) (i : Nat) : Except String α :=
  match l.get? i with
  | some v => Except.ok v
  | none => Except.error "IndexError"

/-- The sapper's neighbour scan: fold the four cardinal neighbours in
source order, keeping the first strictly improving flow value (the
`0 <= nx` guard of the source is the explicit non-zero check here). -/
def sapperStep (m : MapData) (flow : List (List (Option Nat))) (x y : Nat) : Nat × Nat :=
  let upd := fun (st : (Nat × Nat) × Option Nat) (ok : Bool) (c : Nat × Nat) =>
    if ok && decide (c.1 < m.width) && decide (c.2 < m.height)
        && ltOpt (fGet flow c.1 c.2) st.2 then
      (c, fGet flow c.1 c.2)
    else st
  let st0 := ((x, y), fGet flow x y)
  let st1 := upd st0 true (x + 1, y)
  let st2 := upd st1 (decide (1 ≤ x)) (x - 1, y)
  let st3 := upd st2 true (x, y + 1)
  let st4 := upd st3 (decide (1 ≤ y)) (x, y - 1)
  st4.1

/-- Embeds `Brain.decide`.  The boss's single `rng.random()` draw is the
explicit `draw` argument.  Python's fallible list indexing is `pyIndex` in
the `Except` monad; every site but the summoner's guards the index first.
The skirmisher's retreat arithmetic `actor.x + (1 if dx <= 0 else -1)`
is rendered through the sign tests on the natural coordinates. -/
def Brain.decide (archetype : String) (actor : Position) (stats : Stats) (m : MapData)
    (player_pos : Nat × Nat) (draw : ℚ) : Except String AIAction :=
  let distance := manhattan (actor.x, actor.y) player_pos
  if archetype = "brute" then
    if distance ≤ 1 then Except.ok { type := "attack", target := some player_pos }
    else
      let path := astar_path m (actor.x, actor.y) player_pos
      if 1 < path.length then do
        let c ← pyIndex path 1
        Except.ok { type := "move", target := some c }
      else Except.ok { type := "wait" }
  else if archetype = "skirmisher" then
    if 2 ≤ distance ∧ distance ≤ 3 then Except.ok { type := "attack", target := some player_pos }
    else if distance < 2 then
      let retreatX := if actor.x ≤ player_pos.1 then actor.x + 1 else actor.x - 1
      let retreatY := if actor.y ≤ player_pos.2 then actor.y + 1 else actor.y - 1
      Except.ok { type := "move", target := some (retreatX, retreatY) }
    else
      let path := astar_path m (actor.x, actor.y) player_pos
      if 1 < path.length then do
        let c ← pyIndex path 1
        Except.ok { type := "move", target := some c }
      else Except.ok { type := "wait" }
  else if archetype = "ranged" then
    if 4 ≤ distance then Except.ok { type := "attack", target := some player_pos }
    else
      let path := astar_path m (actor.x, actor.y) player_pos
      if 1 < path.length then
        let step := path.getD (path.length - min 2 (path.length - 1)) (0, 0)
        Except.ok { type := "move", target := some step }
      else Except.ok { type := "wait" }
  else if archetype = "summoner" then
    if 4 < distance then Except.ok { type := "summon", target := some player_pos }
    else if 1 < distance then do
      let c ← pyIndex (astar_path m (actor.x, actor.y) player_pos) 1
      Except.ok { type := "move", target := some c }
    else Except.ok { type := "move", target := some player_pos }
  else if archetype = "sapper" then
    let flow := dijkstra_flow m [player_pos]
    let best := sapperStep m flow actor.x actor.y
    if best ≠ (actor.x, actor.y) then Except.ok { type := "move", target := some best }
    else Except.ok { type := "trap", target := some (actor.x, actor.y) }
  else if archetype = "boss" then
    if stats.hp ≤ stats.max_hp / 2 ∧ draw < 3/10 then Except.ok { type := "enrage" }
    else if distance ≤ 2 then Except.ok { type := "shockwave", target := some player_pos }
    else
      let path := astar_path m (actor.x, actor.y) player_pos
      if 1 < path.length then do
        let c ← pyIndex path 1
        Except.ok { type := "move", target := some c }
      else Except.ok { type := "wait" }
  else Except.ok { type := "wait" }

/-- A seeded-stream state that drives rooms-mode generation on a 20 by 7
grid into two rooms joined by one corridor whose locked door cuts the map:
rooms at (1,1) and (13,1) of size 5 by 5, then 200 rejected placements,
the horizontal-first corridor coin, an identity hazard shuffle, acid
flips, the locked-door pick (10, 3) and the key shuffle. -/
def c2Stream : Nat → Nat := fun n =>
  if n < 4 then 0
  else if n < 8 then (if n = 6 then 12 else 0)
  else if n < 809 then 0
  else if n < 865 then 865 - n
  else if n = 868 then 4
  else 0

/-- The random state built on `c2Stream`. -/
def c2Random : PyRandom := ⟨c2Stream, 0⟩

/-- The map of a successful generation, dropping the rng state. -/
def genOkMap (res : Except String (MapData × PyRandom)) : Option MapData :=
  match res with
  | Except.ok (md, _) => some md
  | Except.error _ => none

/-- The all-zero random stream. -/
def zeroRandom : PyRandom := ⟨fun _ => 0, 0⟩

/-! ## Theorems: the claims C1-C10 and their supporting lemmas -/

/-! ## Facts about the combat and component operations (claims C4, C5, C6, C9, C10) -/

/-- Truncation toward zero agrees with the floor on non-negative rationals. -/
theorem pyInt_eq_floor (q : ℚ) (h : 0 ≤ q) : pyInt q = ⌊q⌋ := by
  unfold pyInt
  rw [Rat.floor_def]
  exact Int.tdiv_eq_ediv (Rat.num_nonneg.mpr h) (by positivity)

/-- C4 (amended): for a resistance fraction `r ∈ [0,1)` for the element and a
non-negative amount, `take_damage` lowers HP by exactly `⌊amount * (1 - r)⌋`
clamped so HP never drops below 0, and it returns `⌊amount * (1 - r)⌋`
itself — the post-resistance figure, not further clamped by the HP that was
actually available. -/
theorem take_damage_floor_and_return (s : Stats) (amount : Int) (element : String)
    (hamt : 0 ≤ amount) (h0 : 0 ≤ resistLookup s.resistances element)
    (h1 : resistLookup s.resistances element < 1) :
    (s.take_damage amount element).1.hp
        = max 0 (s.hp - ⌊(amount : ℚ) * (1 - resistLookup s.resistances element)⌋)
      ∧ (s.take_damage amount element).2
        = ⌊(amount : ℚ) * (1 - resistLookup s.resistances element)⌋ := by
  have hmax : max (0 : ℚ) (1 - resistLookup s.resistances element)
      = 1 - resistLookup s.resistances element := max_eq_right (by linarith)
  have hq : (0 : ℚ) ≤ (amount : ℚ) * (1 - resistLookup s.resistances element) :=
    mul_nonneg (by exact_mod_cast hamt) (by linarith)
  simp only [Stats.take_damage]
  rw [hmax, pyInt_eq_floor _ hq]
  exact ⟨rfl, rfl⟩

theorem take_damage_floor_and_return_witness :
    (statsFixture.take_damage 7 "fire").1.hp
        = max 0 (statsFixture.hp - ⌊((7 : Int) : ℚ) * (1 - resistLookup statsFixture.resistances "fire")⌋)
      ∧ (statsFixture.take_damage 7 "fire").2
        = ⌊((7 : Int) : ℚ) * (1 - resistLookup statsFixture.resistances "fire")⌋ :=
  take_damage_floor_and_return statsFixture 7 "fire" (by norm_num)
    (by norm_num [resistLookup, List.find?]) (by norm_num [resistLookup, List.find?])

/-- C4 counterexample: with 5 HP left and no resistance, `take_damage 10`
returns 10 though only 5 HP were actually subtracted, refuting the claim
that the return value equals `min (⌊amount * (1 - r)⌋) hp`. -/
theorem take_damage_return_exceeds_hp :
    (statsLowHp.take_damage 10 "physical").2 = 10
      ∧ statsLowHp.hp = 5
      ∧ min (⌊((10 : Int) : ℚ) * (1 - resistLookup statsLowHp.resistances "physical")⌋) statsLowHp.hp = 5
      ∧ (statsLowHp.take_damage 10 "physical").2
          ≠ min (⌊((10 : Int) : ℚ) * (1 - resistLookup statsLowHp.resistances "physical")⌋) statsLowHp.hp := by
  refine ⟨?_, rfl, ?_, ?_⟩ <;>
    norm_num [Stats.take_damage, statsLowHp, resistLookup, List.find?, pyInt, Int.tdiv]

/-- C5: a call to `gain_xp` performs at most one level-up: when the new xp
meets the threshold `10 + level * 5`, the level rises by exactly 1, the
maxima grow by the fixed increments (+4 HP, +2 MP, +1 atk, +1 defense), HP
and MP are restored to the new maxima, the leftover xp is
`xp + reward - threshold` and the call reports `true`; otherwise only the
xp field changes and the call reports `false`. -/
theorem gain_xp_single_level (s : Stats) (reward : Int) :
    (s.xp + reward ≥ 10 + s.level * 5 →
      gain_xp s reward =
        ({ s with
            level := s.level + 1
            max_hp := s.max_hp + 4
            max_mp := s.max_mp + 2
            atk := s.atk + 1
            defense := s.defense + 1
            hp := s.max_hp + 4
            mp := s.max_mp + 2
            xp := s.xp + reward - (10 + s.level * 5) }, true))
    ∧ (s.xp + reward < 10 + s.level * 5 →
      gain_xp s reward = ({ s with xp := s.xp + reward }, false)) := by
  constructor <;> intro h <;> simp only [gain_xp] <;> split
  · rfl
  · omega
  · omega
  · rfl

theorem gain_xp_single_level_witness :
    (gain_xp statsFixture 50 =
      ({ statsFixture with
          level := 2, max_hp := 24, max_mp := 7, atk := 9, defense := 3,
          hp := 24, mp := 7, xp := 35 }, true))
    ∧ (gain_xp statsFixture 3 = ({ statsFixture with xp := 3 }, false)) := by
  have h1 := (gain_xp_single_level statsFixture 50).1 (by norm_num [statsFixture])
  have h2 := (gain_xp_single_level statsFixture 3).2 (by norm_num [statsFixture])
  exact ⟨h1, h2⟩

theorem addStatus_names (l : List StatusEffect) (e : StatusEffect) :
    namesOf (addStatus l e) =
      if e.name ∈ namesOf l then namesOf l else namesOf l ++ [e.name] := by
  induction l with
  | nil => simp [addStatus, namesOf]
  | cons x xs ih =>
    by_cases hx : x.name = e.name
    · simp [addStatus, hx, namesOf]
    · have hne : ¬ e.name = x.name := fun hh => hx hh.symm
      simp only [addStatus, if_neg hx, namesOf, List.map_cons] at ih ⊢
      rw [ih]
      simp only [List.mem_cons, hne, false_or]
      split <;> simp

theorem namesOf_length (l : List StatusEffect) : (namesOf l).length = l.length :=
  List.length_map l StatusEffect.name

theorem addStatus_find (l : List StatusEffect) (e : StatusEffect)
    (h : e.name ∈ namesOf l) :
    (addStatus l e).find? (fun x => x.name == e.name) =
      (l.find? (fun x => x.name == e.name)).map (fun old => mergeEffect old e) := by
  induction l with
  | nil => simp [namesOf] at h
  | cons x xs ih =>
    by_cases hx : x.name = e.name
    · simp [addStatus, hx, List.find?, mergeEffect]
    · have hmem : e.name ∈ namesOf xs := by
        rcases List.mem_cons.mp h with h1 | h1
        · exact absurd h1.symm hx
        · exact h1
      have hbeq : (x.name == e.name) = false := beq_false_of_ne hx
      simp only [addStatus, if_neg hx, List.find?, hbeq]
      exact ih hmem

/-- C6: re-applying a status never creates a second entry with the same
name: when the name is already tracked the entry count is unchanged and the
first matching entry's duration and potency become the max of the old and
new values; and every `add` preserves the invariant that tracked names are
pairwise distinct. -/
theorem status_add_merges (t : StatusTracker) (e : StatusEffect) :
    (e.name ∈ namesOf t.statuses →
      (t.add e).statuses.length = t.statuses.length
      ∧ (t.add e).statuses.find? (fun x => x.name == e.name) =
          (t.statuses.find? (fun x => x.name == e.name)).map (fun old => mergeEffect old e))
    ∧ ((namesOf t.statuses).Nodup → (namesOf (t.add e).statuses).Nodup) := by
  constructor
  · intro h
    refine ⟨?_, addStatus_find t.statuses e h⟩
    have := addStatus_names t.statuses e
    rw [if_pos h] at this
    have hlen := congrArg List.length this
    rwa [namesOf_length, namesOf_length] at hlen
  · intro hnd
    rw [show (t.add e).statuses = addStatus t.statuses e from rfl, addStatus_names]
    split
    · exact hnd
    · next hmem =>
        rw [List.nodup_append]
        exact ⟨hnd, List.nodup_singleton _, by simpa using hmem⟩

theorem status_add_merges_witness :
    (trackerFixture.add bleedAgain).statuses.length = trackerFixture.statuses.length
    ∧ (trackerFixture.add bleedAgain).statuses.find? (fun x => x.name == bleedAgain.name) =
        (trackerFixture.statuses.find? (fun x => x.name == bleedAgain.name)).map
          (fun old => mergeEffect old bleedAgain)
    ∧ (namesOf (trackerFixture.add bleedAgain).statuses).Nodup := by
  have h := status_add_merges trackerFixture bleedAgain
  have h1 := h.1 (by simp [trackerFixture, bleedAgain, namesOf])
  have h2 := h.2 (by simp [trackerFixture, namesOf])
  exact ⟨h1.1, h1.2, h2⟩

theorem addStack_eq_none (l : List Item) (item : Item) :
    addStack l item = none ↔
      ∀ s ∈ l, ¬ (s.name = item.name ∧ s.identified = item.identified) := by
  induction l with
  | nil => simp [addStack]
  | cons x xs ih =>
    by_cases hx : x.name = item.name ∧ x.identified = item.identified
    · simp [addStack, hx]
    · constructor
      · intro h s hs
        rcases List.mem_cons.mp hs with rfl | hs2
        · exact hx
        · have hxs : addStack xs item = none := by
            cases hrec : addStack xs item with
            | none => rfl
            | some l2 =>
              rw [addStack, if_neg hx, hrec] at h
              exact Option.noConfusion h
          exact ih.mp hxs s hs2
      · intro h
        rw [addStack, if_neg hx, ih.mpr fun s hs => h s (List.mem_cons_of_mem x hs)]
        rfl

theorem addStack_split (l1 : List Item) (stored : Item) (l2 : List Item) (item : Item)
    (hclean : ∀ s ∈ l1, ¬ (s.name = item.name ∧ s.identified = item.identified))
    (hmatch : stored.name = item.name ∧ stored.identified = item.identified) :
    addStack (l1 ++ stored :: l2) item =
      some (l1 ++ { stored with quantity := stored.quantity + item.quantity } :: l2) := by
  induction l1 with
  | nil => simp [addStack, hmatch]
  | cons x xs ih =>
    have hx : ¬ (x.name = item.name ∧ x.identified = item.identified) :=
      hclean x (List.mem_cons_self x xs)
    simp only [List.cons_append, addStack, if_neg hx, List.append_eq]
    rw [ih fun s hs => hclean s (List.mem_cons_of_mem x hs)]
    rfl

theorem addStack_of_mem (l : List Item) (item : Item)
    (h : ∃ s ∈ l, s.name = item.name ∧ s.identified = item.identified) :
    ∃ l2, addStack l item = some l2 ∧ l2.length = l.length
      ∧ qtySum l2 = qtySum l + item.quantity := by
  induction l with
  | nil => simp at h
  | cons x xs ih =>
    by_cases hx : x.name = item.name ∧ x.identified = item.identified
    · refine ⟨{ x with quantity := x.quantity + item.quantity } :: xs, ?_, rfl, ?_⟩
      · simp [addStack, hx]
      · simp [qtySum]
        ring
    · have hmem : ∃ s ∈ xs, s.name = item.name ∧ s.identified = item.identified := by
        rcases h with ⟨s, hs, hsp⟩
        rcases List.mem_cons.mp hs with rfl | hs2
        · exact absurd hsp hx
        · exact ⟨s, hs2, hsp⟩
      rcases ih hmem with ⟨l2, hl2, hlen, hq⟩
      refine ⟨x :: l2, ?_, by simp [hlen], ?_⟩
      · simp [addStack, if_neg hx, hl2]
      · simp [qtySum] at hq ⊢
        omega

/-- C9 (amended): `Inventory.add` merges — bumping the first stored entry
whose name and identified flag match and returning `true` — exactly when the
incoming item is stackable and such an entry exists; the stored entry's own
`stackable` flag is not consulted.  Otherwise it appends and returns `true`
iff the entry count is below `width * height`, and a `false` return leaves
the item list unchanged. -/
theorem inventory_add_characterization (inv : Inventory) (item : Item) :
    (item.stackable = true →
      ∀ l1 stored l2, inv.items = l1 ++ stored :: l2 →
        (∀ s ∈ l1, ¬ (s.name = item.name ∧ s.identified = item.identified)) →
        (stored.name = item.name ∧ stored.identified = item.identified) →
        inv.add item =
          ({ inv with items :=
              l1 ++ { stored with quantity := stored.quantity + item.quantity } :: l2 }, true))
    ∧ ((item.stackable = false
          ∨ ∀ s ∈ inv.items, ¬ (s.name = item.name ∧ s.identified = item.identified)) →
        (inv.items.length < inv.capacity →
          inv.add item = ({ inv with items := inv.items ++ [item] }, true))
        ∧ (inv.capacity ≤ inv.items.length → inv.add item = (inv, false))) := by
  constructor
  · intro hstk l1 stored l2 hsplit hclean hmatch
    unfold Inventory.add
    rw [if_pos hstk, hsplit, addStack_split l1 stored l2 item hclean hmatch]
  · intro hno
    unfold Inventory.add
    rcases hno with hns | hclean
    · rw [if_neg (by simp [hns])]
      constructor
      · intro hlt
        rw [if_neg (by omega)]
      · intro hge
        rw [if_pos hge]
    · by_cases hstk : item.stackable = true
      · rw [if_pos hstk, (addStack_eq_none inv.items item).mpr hclean]
        constructor
        · intro hlt
          rw [if_neg (by omega)]
        · intro hge
          rw [if_pos hge]
      · rw [if_neg hstk]
        constructor
        · intro hlt
          rw [if_neg (by omega)]
        · intro hge
          rw [if_pos hge]

theorem inventory_add_characterization_witness :
    invFixture.add potionItem =
      ({ invFixture with
          items := [{ name := "potion", stackable := true, quantity := 3, identified := true },
                    { name := "sword" }] }, true)
    ∧ invFixture.add { name := "shield" } = (invFixture, false) := by
  have h1 := (inventory_add_characterization invFixture potionItem).1 rfl
      [] { name := "potion", stackable := true, quantity := 2, identified := true }
      [{ name := "sword" }] rfl (by simp) (by simp [potionItem])
  have h2 := ((inventory_add_characterization invFixture { name := "shield" }).2
      (Or.inl rfl)).2 (by simp [invFixture, Inventory.capacity])
  refine ⟨?_, h2⟩
  simpa [potionItem] using h1

/-- C10: when the inventory is already at capacity but holds an entry whose
name and identified flag match an incoming stackable item, `add` still
returns `true`, bumps that stack (total quantity grows by the incoming
quantity) and the entry count stays at capacity; and no `add` ever pushes
the entry count past `width * height` when it was within it. -/
theorem inventory_merge_bypasses_capacity (inv : Inventory) (item : Item) :
    (item.stackable = true →
      inv.items.length = inv.capacity →
      (∃ s ∈ inv.items, s.name = item.name ∧ s.identified = item.identified) →
      (inv.add item).2 = true
      ∧ (inv.add item).1.items.length = inv.capacity
      ∧ qtySum (inv.add item).1.items = qtySum inv.items + item.quantity)
    ∧ (inv.items.length ≤ inv.capacity →
        (inv.add item).1.items.length ≤ inv.capacity) := by
  constructor
  · intro hstk hcap hmem
    rcases addStack_of_mem inv.items item hmem with ⟨l2, hl2, hlen, hq⟩
    have hadd : inv.add item = ({ inv with items := l2 }, true) := by
      unfold Inventory.add
      rw [if_pos hstk, hl2]
    rw [hadd]
    exact ⟨rfl, by simpa [hlen] using hcap, by simpa using hq⟩
  · intro hle
    unfold Inventory.add
    by_cases hstk : item.stackable = true
    · rw [if_pos hstk]
      cases hcase : addStack inv.items item with
      | some l2 =>
        have : ∃ s ∈ inv.items, s.name = item.name ∧ s.identified = item.identified := by
          by_contra hnone
          push_neg at hnone
          rw [(addStack_eq_none inv.items item).mpr (by intro s hs; have := hnone s hs; tauto)] at hcase
          exact Option.noConfusion hcase
        rcases addStack_of_mem inv.items item this with ⟨l2b, hl2b, hlenb, _⟩
        rw [hl2b] at hcase
        cases hcase
        simpa [hlenb] using hle
      | none =>
        by_cases hfull : inv.items.length ≥ inv.capacity
        · rw [if_pos hfull]
          exact hle
        · rw [if_neg hfull]
          simp only [List.length_append, List.length_cons, List.length_nil]
          omega
    · rw [if_neg hstk]
      by_cases hfull : inv.items.length ≥ inv.capacity
      · rw [if_pos hfull]
        exact hle
      · rw [if_neg hfull]
        simp only [List.length_append, List.length_cons, List.length_nil]
        omega

theorem inventory_merge_bypasses_capacity_witness :
    (invFull.add potionItem).2 = true
    ∧ (invFull.add potionItem).1.items.length = invFull.capacity
    ∧ qtySum (invFull.add potionItem).1.items = qtySum invFull.items + potionItem.quantity := by
  have h := (inventory_merge_bypasses_capacity invFull potionItem).1 rfl rfl
      ⟨{ name := "potion", stackable := true, quantity := 2, identified := true },
        by simp [invFull], by simp [potionItem]⟩
  exact h

/-- C9 counterexample: the claim requires both the incoming item and the
stored entry to be stackable for a merge, so here (stored sword not
stackable, inventory full) it predicts a failed append returning `false`
with the list unchanged; the code merges anyway, returning `true` and
bumping the non-stackable sword's quantity to 2. -/
theorem inventory_add_merges_into_nonstackable :
    (∀ s ∈ invSword.items, ¬ (s.stackable = true ∧ swordCopy.stackable = true
        ∧ s.name = swordCopy.name ∧ s.identified = swordCopy.identified))
    ∧ invSword.items.length = invSword.width * invSword.height
    ∧ (invSword.add swordCopy).2 = true
    ∧ (invSword.add swordCopy).1.items.map Item.quantity = [2] := by
  refine ⟨?_, rfl, ?_, ?_⟩ <;> simp [invSword, swordCopy, Inventory.add, addStack]

theorem natDist_self (v : Nat) : natDist v v = 0 := by unfold natDist; omega

theorem natDist_comm (a b : Nat) : natDist a b = natDist b a := by unfold natDist; omega

theorem natDist_eq_zero (a b : Nat) (h : natDist a b = 0) : a = b := by
  unfold natDist at h; omega

theorem natDist_lt (a b n : Nat) (ha : a < n) (hb : b < n) : natDist a b < n := by
  unfold natDist; omega

theorem cfVal_self (rx ry : Nat) : cfVal rx ry rx ry = 0 := by
  unfold cfVal natDist; omega

theorem cfVal_pos (rx ry x y : Nat) (h : ¬ (x = rx ∧ y = ry)) : 2 ≤ cfVal rx ry x y := by
  unfold cfVal natDist at *; omega

theorem axTri (r v c : Nat) (h : natDist c v ≤ 1) : natDist v r ≤ natDist c r + 1 := by
  unfold natDist at *; omega

theorem axToward (r v : Nat) :
    (v = r ∧ stepToward r v = v ∧ natDist (stepToward r v) r = 0)
    ∨ (v ≠ r ∧ natDist (stepToward r v) r + 1 = natDist v r) := by
  unfold natDist stepToward at *
  split_ifs <;> omega

theorem axStrict (r v c : Nat) (h1 : natDist c v ≤ 1) (h2 : c ≠ stepToward r v) :
    natDist v r ≤ natDist c r ∧ (natDist v r = 0 → 1 ≤ natDist c r) := by
  unfold natDist stepToward at *
  split_ifs at * <;> omega

theorem stepToward_lt (r v : Nat) (h : v < r) : stepToward r v = v + 1 := by
  simp [stepToward, h]

theorem stepToward_gt (r v : Nat) (h : r < v) : stepToward r v = v - 1 := by
  have h2 : ¬ v < r := by omega
  simp [stepToward, h, h2]

theorem stepToward_eq (r v : Nat) (h : r = v) : stepToward r v = v := by
  simp [stepToward, h]

theorem stepToward_bound (r v n : Nat) (hv : v < n) (hr : r < n) : stepToward r v < n := by
  unfold stepToward; split_ifs <;> omega

theorem stepToward_close (r v : Nat) : natDist (stepToward r v) v ≤ 1 := by
  unfold stepToward natDist; split_ifs <;> omega

theorem stepToward_ne_iff (r v : Nat) : stepToward r v ≠ v ↔ v ≠ r := by
  unfold stepToward; split_ifs <;> omega

theorem stepCost_ge (rx ry x y : Nat) : 2 ≤ stepCost rx ry x y := by
  unfold stepCost; split_ifs <;> omega

theorem chebStep (rx ry x y : Nat) (h : ¬ (x = rx ∧ y = ry)) :
    max (natDist (stepToward rx x) rx) (natDist (stepToward ry y) ry) + 1
      = max (natDist x rx) (natDist y ry) := by
  rcases axToward rx x with ⟨h1, _, h3⟩ | ⟨h1, h3⟩ <;>
    rcases axToward ry y with ⟨h4, _, h6⟩ | ⟨h4, h6⟩
  · exact absurd ⟨h1, h4⟩ h
  all_goals
    rw [show natDist x rx = _ from by first | rw [h1, natDist_self] | rfl,
        show natDist y ry = _ from by first | rw [h4, natDist_self] | rfl] at *
    omega

theorem cfCore (dX dY dtX dtY dcX dcY : Nat)
    (hX : (dX = 0 ∧ dtX = 0) ∨ dtX + 1 = dX)
    (hY : (dY = 0 ∧ dtY = 0) ∨ dtY + 1 = dY)
    (hnz : dX + dY ≠ 0)
    (hcX : dX ≤ dcX + 1) (hcY : dY ≤ dcY + 1)
    (hstrict : (dX ≤ dcX ∧ (dX = 0 → 1 ≤ dcX)) ∨ (dY ≤ dcY ∧ (dY = 0 → 1 ≤ dcY))) :
    2 * max dtX dtY + min dtX dtY < 2 * max dcX dcY + min dcX dcY := by
  omega

theorem cfCoreExact (dX dY dtX dtY c : Nat)
    (hX : (dX = 0 ∧ dtX = 0) ∨ dtX + 1 = dX)
    (hY : (dY = 0 ∧ dtY = 0) ∨ dtY + 1 = dY)
    (hnz : dX + dY ≠ 0)
    (hc : (dX ≠ 0 ∧ dY ≠ 0 ∧ c = 3) ∨ ((dX = 0 ∨ dY = 0) ∧ c = 2)) :
    2 * max dtX dtY + min dtX dtY + c = 2 * max dX dY + min dY dX := by
  omega

theorem cf_step_exact (rx ry x y : Nat) (h : ¬ (x = rx ∧ y = ry)) :
    cfVal rx ry (stepToward rx x) (stepToward ry y) + stepCost rx ry x y = cfVal rx ry x y := by
  unfold cfVal
  rw [show min (natDist x rx) (natDist y ry) = min (natDist y ry) (natDist x rx) from
    Nat.min_comm _ _]
  apply cfCoreExact (natDist x rx) (natDist y ry)
  · rcases axToward rx x with ⟨h1, _, h3⟩ | ⟨_, h2⟩
    · exact Or.inl ⟨h1 ▸ natDist_self rx, h3⟩
    · exact Or.inr h2
  · rcases axToward ry y with ⟨h1, _, h3⟩ | ⟨_, h2⟩
    · exact Or.inl ⟨h1 ▸ natDist_self ry, h3⟩
    · exact Or.inr h2
  · intro hz
    have hx0 : natDist x rx = 0 := by omega
    have hy0 : natDist y ry = 0 := by omega
    exact h ⟨natDist_eq_zero _ _ hx0, natDist_eq_zero _ _ hy0⟩
  · unfold stepCost
    split_ifs with hc
    · refine Or.inl ⟨?_, ?_, rfl⟩ <;>
        [ exact fun h0 => hc.1 (natDist_eq_zero _ _ h0);
          exact fun h0 => hc.2 (natDist_eq_zero _ _ h0)]
    · refine Or.inr ⟨?_, rfl⟩
      rcases not_and_or.mp hc with h0 | h0
      · exact Or.inl (by rw [not_ne_iff.mp h0]; exact natDist_self rx)
      · exact Or.inr (by rw [not_ne_iff.mp h0]; exact natDist_self ry)

theorem cf_step_unique (rx ry x y cx cy : Nat) (h : ¬ (x = rx ∧ y = ry))
    (hcx : natDist cx x ≤ 1) (hcy : natDist cy y ≤ 1)
    (hne : ¬ (cx = stepToward rx x ∧ cy = stepToward ry y)) :
    cfVal rx ry (stepToward rx x) (stepToward ry y) < cfVal rx ry cx cy := by
  unfold cfVal
  apply cfCore (natDist x rx) (natDist y ry)
  · rcases axToward rx x with ⟨h1, _, h3⟩ | ⟨_, h2⟩
    · exact Or.inl ⟨h1 ▸ natDist_self rx, h3⟩
    · exact Or.inr h2
  · rcases axToward ry y with ⟨h1, _, h3⟩ | ⟨_, h2⟩
    · exact Or.inl ⟨h1 ▸ natDist_self ry, h3⟩
    · exact Or.inr h2
  · intro hz
    have hx0 : natDist x rx = 0 := by omega
    have hy0 : natDist y ry = 0 := by omega
    exact h ⟨natDist_eq_zero _ _ hx0, natDist_eq_zero _ _ hy0⟩
  · exact axTri rx x cx hcx
  · exact axTri ry y cy hcy
  · rcases not_and_or.mp hne with h0 | h0
    · exact Or.inl (axStrict rx x cx hcx h0)
    · exact Or.inr (axStrict ry y cy hcy h0)

theorem cfTriCard (rx ry x y u v : Nat) (h : natDist u x + natDist v y ≤ 1) :
    cfVal rx ry x y ≤ cfVal rx ry u v + 2 := by
  unfold cfVal natDist at *; omega

theorem cfTriDiag (rx ry x y u v : Nat) (h1 : natDist u x ≤ 1) (h2 : natDist v y ≤ 1) :
    cfVal rx ry x y ≤ cfVal rx ry u v + 3 := by
  unfold cfVal natDist at *; omega

theorem nbrCells_close (x y : Nat) (c : Nat × Nat) (h : c ∈ nbrCells x y) :
    natDist c.1 x ≤ 1 ∧ natDist c.2 y ≤ 1 := by
  simp only [nbrCells, List.mem_cons, List.not_mem_nil, or_false] at h
  rcases h with rfl | rfl | rfl | rfl | rfl | rfl | rfl | rfl <;>
    constructor <;> unfold natDist <;> simp <;> omega

theorem cf_le_nbr (rx ry x y : Nat) (c : Nat × Nat) (h : c ∈ nbrCells x y) :
    cfVal rx ry x y ≤ cfVal rx ry c.1 c.2 + cellCost x y c := by
  have hclose := nbrCells_close x y c h
  unfold cellCost
  split_ifs with hd
  · exact cfTriDiag rx ry x y c.1 c.2 hclose.1 hclose.2
  · apply cfTriCard
    rcases not_and_or.mp hd with h0 | h0
    · have : natDist c.1 x = 0 := by rw [not_ne_iff.mp h0]; exact natDist_self x
      omega
    · have : natDist c.2 y = 0 := by rw [not_ne_iff.mp h0]; exact natDist_self y
      omega

/-! Option-minimum fold layer -/

theorem optMin_some (a b : Option Nat) (v : Nat) (h : optMin a b = some v) :
    a = some v ∨ b = some v := by
  cases a with
  | none => exact Or.inr h
  | some a1 =>
    cases b with
    | none => exact Or.inl h
    | some b1 =>
      simp only [optMin, Option.some.injEq] at h
      rcases Nat.le_total a1 b1 with hle | hle
      · exact Or.inl (by rw [← h, Nat.min_eq_left hle])
      · exact Or.inr (by rw [← h, Nat.min_eq_right hle])

theorem optMin_le_right (a b : Option Nat) (u : Nat) (h : b = some u) :
    ∃ v, optMin a b = some v ∧ v ≤ u := by
  cases a with
  | none => exact ⟨u, by rw [h]; rfl, le_refl u⟩
  | some a1 => exact ⟨min a1 u, by rw [h]; rfl, Nat.min_le_right a1 u⟩

theorem foldMin_eq_some_mem (l : List (Option Nat)) (init : Option Nat) (v : Nat)
    (h : l.foldr optMin init = some v) : init = some v ∨ ∃ c ∈ l, c = some v := by
  induction l with
  | nil => exact Or.inl h
  | cons a l ih =>
    rcases optMin_some a (l.foldr optMin init) v h with h1 | h1
    · exact Or.inr ⟨a, List.mem_cons_self a l, h1⟩
    · rcases ih h1 with h2 | ⟨c, hc, hcv⟩
      · exact Or.inl h2
      · exact Or.inr ⟨c, List.mem_cons_of_mem a hc, hcv⟩

theorem foldMin_le_init (l : List (Option Nat)) (init : Option Nat) (u : Nat)
    (h : init = some u) : ∃ v, l.foldr optMin init = some v ∧ v ≤ u := by
  induction l with
  | nil => exact ⟨u, h, le_refl u⟩
  | cons a l ih =>
    rcases ih with ⟨v, hv, hvu⟩
    rcases optMin_le_right a (l.foldr optMin init) v hv with ⟨v2, hv2, hle⟩
    exact ⟨v2, hv2, le_trans hle hvu⟩

theorem foldMin_le_mem (l : List (Option Nat)) (init : Option Nat) (c : Option Nat) (u : Nat)
    (hc : c ∈ l) (hcu : c = some u) : ∃ v, l.foldr optMin init = some v ∧ v ≤ u := by
  induction l with
  | nil => simp at hc
  | cons a l ih =>
    rcases List.mem_cons.mp hc with rfl | hc2
    · cases hrest : l.foldr optMin init with
      | none =>
        refine ⟨u, ?_, le_refl u⟩
        simp only [List.foldr_cons, hrest, hcu]
        rfl
      | some b =>
        refine ⟨min u b, ?_, Nat.min_le_left u b⟩
        simp only [List.foldr_cons, hrest, hcu]
        rfl
    · rcases ih hc2 with ⟨v, hv, hvu⟩
      rcases optMin_le_right a (l.foldr optMin init) v hv with ⟨v2, hv2, hle⟩
      exact ⟨v2, hv2, le_trans hle hvu⟩

/-! Field shape and access -/

theorem getD_range_map {α : Type} (n : Nat) (f : Nat → α) (d : α) (y : Nat) (hy : y < n) :
    ((List.range n).map f).getD y d = f y := by
  rw [List.getD_eq_getElem?_getD, List.getElem?_map, List.getElem?_range hy]
  rfl

theorem getD_range_map_oob {α : Type} (n : Nat) (f : Nat → α) (d : α) (y : Nat) (hy : n ≤ y) :
    ((List.range n).map f).getD y d = d := by
  rw [List.getD_eq_getElem?_getD, List.getElem?_eq_none (by simpa using hy)]
  rfl

theorem rangeMapGet (w h : Nat) (g : Nat → Nat → Option Nat) (x y : Nat)
    (hx : x < w) (hy : y < h) :
    fGet ((List.range h).map fun j => (List.range w).map fun i => g i j) x y = g x y := by
  unfold fGet
  rw [getD_range_map h _ _ y hy, getD_range_map w _ _ x hx]

theorem rangeMapGet_oob (w h : Nat) (g : Nat → Nat → Option Nat) (x y : Nat)
    (hxy : ¬ (x < w ∧ y < h)) :
    fGet ((List.range h).map fun j => (List.range w).map fun i => g i j) x y = none := by
  unfold fGet
  by_cases hy : y < h
  · have hx : w ≤ x := by omega
    rw [getD_range_map h _ _ y hy, getD_range_map_oob w _ _ x hx]
  · rw [getD_range_map_oob h _ _ y (by omega)]
    rfl

/-- Every distance-field iterate is a range-built grid of this shape. -/
theorem iter_built (w h : Nat) (walk : Nat → Nat → Bool) (roots : List (Nat × Nat)) (n : Nat) :
    ∃ g : Nat → Nat → Option Nat,
      (relaxStep w h walk)^[n] (fieldInit w h roots)
        = (List.range h).map fun j => (List.range w).map fun i => g i j := by
  cases n with
  | zero => exact ⟨fun i j => if (i, j) ∈ roots then some 0 else none, rfl⟩
  | succ n =>
    rw [Function.iterate_succ_apply']
    exact ⟨fun i j => relaxAt walk ((relaxStep w h walk)^[n] (fieldInit w h roots)) i j, rfl⟩

theorem iter_oob (w h : Nat) (walk : Nat → Nat → Bool) (roots : List (Nat × Nat)) (n x y : Nat)
    (hxy : ¬ (x < w ∧ y < h)) :
    fGet ((relaxStep w h walk)^[n] (fieldInit w h roots)) x y = none := by
  rcases iter_built w h walk roots n with ⟨g, hg⟩
  rw [hg]
  exact rangeMapGet_oob w h g x y hxy

theorem fGet_init (w h : Nat) (roots : List (Nat × Nat)) (x y : Nat) (hx : x < w) (hy : y < h) :
    fGet (fieldInit w h roots) x y = if (x, y) ∈ roots then some 0 else none :=
  rangeMapGet w h _ x y hx hy

theorem fGet_iter_succ (w h : Nat) (walk : Nat → Nat → Bool) (roots : List (Nat × Nat))
    (n x y : Nat) (hx : x < w) (hy : y < h) :
    fGet ((relaxStep w h walk)^[n + 1] (fieldInit w h roots)) x y
      = relaxAt walk ((relaxStep w h walk)^[n] (fieldInit w h roots)) x y := by
  rw [Function.iterate_succ_apply']
  exact rangeMapGet w h _ x y hx hy

theorem iter_zero (w h : Nat) (walk : Nat → Nat → Bool) (roots : List (Nat × Nat)) :
    (relaxStep w h walk)^[0] (fieldInit w h roots) = fieldInit w h roots := rfl

theorem lb_iter (w h : Nat) (walk : Nat → Nat → Bool) (rx ry : Nat) (n : Nat) :
    LowerB rx ry ((relaxStep w h walk)^[n] (fieldInit w h [(rx, ry)])) := by
  induction n with
  | zero =>
    intro x y v hv
    by_cases hxy : x < w ∧ y < h
    · rw [iter_zero w h walk _, fGet_init w h _ x y hxy.1 hxy.2] at hv
      split_ifs at hv with hroot
      · simp only [List.mem_cons, List.not_mem_nil, or_false, Prod.mk.injEq] at hroot
        obtain ⟨rfl, rfl⟩ : x = rx ∧ y = ry := hroot
        simp only [Option.some.injEq] at hv
        rw [cfVal_self]
        omega
    · rw [iter_oob w h walk _ 0 x y hxy] at hv
      exact absurd hv (by simp)
  | succ n ih =>
    intro x y v hv
    by_cases hxy : x < w ∧ y < h
    · rw [fGet_iter_succ w h walk _ n x y hxy.1 hxy.2] at hv
      unfold relaxAt at hv
      split_ifs at hv
      · rcases foldMin_eq_some_mem _ _ v hv with hself | ⟨c, hc, hcv⟩
        · exact ih x y v hself
        · rcases List.mem_map.mp hc with ⟨nb, hnb, rfl⟩
          unfold nbrCand at hcv
          cases hget : fGet ((relaxStep w h walk)^[n] (fieldInit w h [(rx, ry)])) nb.1 nb.2 with
          | none =>
            rw [hget] at hcv
            exact Option.noConfusion hcv
          | some u =>
            rw [hget] at hcv
            have hcv2 : u + cellCost x y nb = v := Option.some.inj hcv
            have h1 := ih nb.1 nb.2 u hget
            have h2 := cf_le_nbr rx ry x y nb hnb
            omega
      · exact ih x y v hv
    · rw [iter_oob w h walk _ (n+1) x y hxy] at hv
      exact absurd hv (by simp)

/-! Upper bound on open grids -/

theorem toward_mem_cells (rx ry x y : Nat) (h : ¬ (x = rx ∧ y = ry)) :
    (stepToward rx x, stepToward ry y) ∈ nbrCells x y := by
  by_cases hxr : x = rx
  · by_cases hyr : y = ry
    · exact absurd ⟨hxr, hyr⟩ h
    · rw [stepToward_eq rx x hxr.symm]
      rcases Nat.lt_or_ge y ry with hy | hy
      · rw [stepToward_lt ry y hy]
        simp [nbrCells]
      · rw [stepToward_gt ry y (by omega)]
        simp [nbrCells]
  · rcases Nat.lt_or_ge x rx with hx | hx
    · rw [stepToward_lt rx x hx]
      by_cases hyr : y = ry
      · rw [stepToward_eq ry y hyr.symm]
        simp [nbrCells]
      · rcases Nat.lt_or_ge y ry with hy | hy
        · rw [stepToward_lt ry y hy]
          simp [nbrCells]
        · rw [stepToward_gt ry y (by omega)]
          simp [nbrCells]
    · rw [stepToward_gt rx x (by omega)]
      by_cases hyr : y = ry
      · rw [stepToward_eq ry y hyr.symm]
        simp [nbrCells]
      · rcases Nat.lt_or_ge y ry with hy | hy
        · rw [stepToward_lt ry y hy]
          simp [nbrCells]
        · rw [stepToward_gt ry y (by omega)]
          simp [nbrCells]

theorem toward_cost (rx ry x y : Nat) :
    cellCost x y (stepToward rx x, stepToward ry y) = stepCost rx ry x y := by
  unfold cellCost stepCost
  refine if_congr (and_congr ?_ ?_) rfl rfl <;> exact stepToward_ne_iff _ _

theorem toward_cand_mem (rx ry x y : Nat) (f : List (List (Option Nat)))
    (h : ¬ (x = rx ∧ y = ry)) :
    nbrCand f (stepToward rx x) (stepToward ry y) (stepCost rx ry x y) ∈ relaxCands f x y := by
  unfold relaxCands
  refine List.mem_map.mpr ⟨(stepToward rx x, stepToward ry y), toward_mem_cells rx ry x y h, ?_⟩
  rw [toward_cost]

theorem ex_iter (w h : Nat) (walk : Nat → Nat → Bool) (rx ry : Nat)
    (hwalk : ∀ x y, x < w → y < h → walk x y = true)
    (hrx : rx < w) (hry : ry < h) :
    ∀ k x y, x < w → y < h → max (natDist x rx) (natDist y ry) ≤ k →
      ∃ v, fGet ((relaxStep w h walk)^[k] (fieldInit w h [(rx, ry)])) x y = some v
        ∧ v ≤ cfVal rx ry x y := by
  intro k
  induction k with
  | zero =>
    intro x y hx hy hcheb
    have hdx : natDist x rx = 0 := by omega
    have hdy : natDist y ry = 0 := by omega
    obtain rfl := natDist_eq_zero x rx hdx
    obtain rfl := natDist_eq_zero y ry hdy
    refine ⟨0, ?_, by omega⟩
    rw [iter_zero w h walk _, fGet_init w h _ x y hx hy, if_pos (by simp)]
  | succ k ih =>
    intro x y hx hy hcheb
    rw [fGet_iter_succ w h walk _ k x y hx hy]
    unfold relaxAt
    rw [if_pos (hwalk x y hx hy)]
    by_cases hle : max (natDist x rx) (natDist y ry) ≤ k
    · rcases ih x y hx hy hle with ⟨v, hv, hvle⟩
      rcases foldMin_le_init (relaxCands _ x y) _ v hv with ⟨v2, hv2, hle2⟩
      exact ⟨v2, hv2, le_trans hle2 hvle⟩
    · have hroot : ¬ (x = rx ∧ y = ry) := by
        rintro ⟨rfl, rfl⟩
        rw [natDist_self, natDist_self] at hle
        omega
      have hchebt : max (natDist (stepToward rx x) rx) (natDist (stepToward ry y) ry) ≤ k := by
        have := chebStep rx ry x y hroot
        omega
      rcases ih (stepToward rx x) (stepToward ry y)
          (stepToward_bound rx x w hx hrx) (stepToward_bound ry y h hy hry) hchebt with
        ⟨vt, hvt, hvtle⟩
      have hcand : nbrCand ((relaxStep w h walk)^[k] (fieldInit w h [(rx, ry)]))
          (stepToward rx x) (stepToward ry y) (stepCost rx ry x y) ∈ relaxCands _ x y :=
        toward_cand_mem rx ry x y _ hroot
      have hcval : nbrCand ((relaxStep w h walk)^[k] (fieldInit w h [(rx, ry)]))
          (stepToward rx x) (stepToward ry y) (stepCost rx ry x y)
            = some (vt + stepCost rx ry x y) := by
        unfold nbrCand
        rw [hvt]
        rfl
      rcases foldMin_le_mem (relaxCands _ x y) _ _ _ hcand hcval with ⟨v2, hv2, hle2⟩
      refine ⟨v2, hv2, ?_⟩
      have := cf_step_exact rx ry x y hroot
      omega

theorem field_exact (w h : Nat) (walk : Nat → Nat → Bool) (rx ry : Nat)
    (hwalk : ∀ x y, x < w → y < h → walk x y = true)
    (hrx : rx < w) (hry : ry < h) (x y : Nat) (hx : x < w) (hy : y < h) :
    fGet (distField w h walk [(rx, ry)]) x y = some (cfVal rx ry x y) := by
  have hcheb : max (natDist x rx) (natDist y ry) ≤ w * h := by
    have h1 : natDist x rx < w := natDist_lt x rx w hx hrx
    have h2 : natDist y ry < h := natDist_lt y ry h hy hry
    have h3 : w ≤ w * h := Nat.le_mul_of_pos_right w (by omega)
    have h4 : h ≤ w * h := Nat.le_mul_of_pos_left h (by omega)
    omega
  rcases ex_iter w h walk rx ry hwalk hrx hry (w * h) x y hx hy hcheb with ⟨v, hv, hvle⟩
  have hlb := lb_iter w h walk rx ry (w * h) x y v hv
  unfold distField
  rw [hv, Option.some.injEq]
  omega

/-! Path extraction -/

theorem pickMin_mem (l : List ((Nat × Nat) × Nat)) (p : (Nat × Nat) × Nat)
    (h : pickMin l = some p) : p ∈ l := by
  induction l generalizing p with
  | nil => exact Option.noConfusion h
  | cons a l ih =>
    rw [pickMin] at h
    cases hrest : pickMin l with
    | none =>
      rw [hrest] at h
      have h2 : some a = some p := h
      exact List.mem_cons.mpr (Or.inl (Option.some.inj h2).symm)
    | some b =>
      rw [hrest] at h
      have h2 : (if b.2 < a.2 then some b else some a) = some p := h
      split_ifs at h2
      · exact List.mem_cons_of_mem a ((Option.some.inj h2) ▸ ih b hrest)
      · exact List.mem_cons.mpr (Or.inl (Option.some.inj h2).symm)

theorem pickMin_unique (l : List ((Nat × Nat) × Nat)) (b : (Nat × Nat) × Nat)
    (hmem : b ∈ l) (hmin : ∀ c ∈ l, c ≠ b → b.2 < c.2) : pickMin l = some b := by
  induction l with
  | nil => simp at hmem
  | cons a l ih =>
    rcases List.mem_cons.mp hmem with rfl | hb
    · rw [pickMin]
      cases hrest : pickMin l with
      | none => rfl
      | some p =>
        show (if p.2 < b.2 then some p else some b) = some b
        have hp : p ∈ l := pickMin_mem l p hrest
        by_cases hpb : p = b
        · rw [if_neg (by rw [hpb]; omega)]
        · have := hmin p (List.mem_cons_of_mem b hp) hpb
          rw [if_neg (by omega)]
    · have hrec : pickMin l = some b :=
        ih hb (fun c hc hcb => hmin c (List.mem_cons_of_mem a hc) hcb)
      rw [pickMin, hrec]
      show (if b.2 < a.2 then some b else some a) = some b
      by_cases hab : a = b
      · rw [if_neg (by rw [hab]; omega)]
        exact congrArg some hab
      · exact if_pos (hmin a (List.mem_cons_self a l) hab) ▸ rfl

theorem descend_exact (w h : Nat) (walk : Nat → Nat → Bool) (rx ry : Nat)
    (hwalk : ∀ x y, x < w → y < h → walk x y = true)
    (hrx : rx < w) (hry : ry < h) (x y : Nat) (hx : x < w) (hy : y < h)
    (hroot : ¬ (x = rx ∧ y = ry)) :
    descend (distField w h walk [(rx, ry)]) x y
      = some (stepToward rx x, stepToward ry y) := by
  have hb : ((stepToward rx x, stepToward ry y), cfVal rx ry (stepToward rx x) (stepToward ry y))
      ∈ (nbrCells x y).filterMap
          fun c => (fGet (distField w h walk [(rx, ry)]) c.1 c.2).map fun v => (c, v) := by
    refine List.mem_filterMap.mpr ⟨(stepToward rx x, stepToward ry y),
      toward_mem_cells rx ry x y hroot, ?_⟩
    rw [field_exact w h walk rx ry hwalk hrx hry _ _
      (stepToward_bound rx x w hx hrx) (stepToward_bound ry y h hy hry)]
    rfl
  have hmin : ∀ c' ∈ (nbrCells x y).filterMap
      (fun c => (fGet (distField w h walk [(rx, ry)]) c.1 c.2).map fun v => (c, v)),
      c' ≠ ((stepToward rx x, stepToward ry y),
            cfVal rx ry (stepToward rx x) (stepToward ry y)) →
      cfVal rx ry (stepToward rx x) (stepToward ry y) < c'.2 := by
    intro c' hc' hne
    rcases List.mem_filterMap.mp hc' with ⟨c, hcmem, heq⟩
    cases hget : fGet (distField w h walk [(rx, ry)]) c.1 c.2 with
    | none =>
      rw [hget] at heq
      exact Option.noConfusion heq
    | some u =>
      rw [hget] at heq
      obtain rfl : (c, u) = c' := Option.some.inj heq
      have hcb : c.1 < w ∧ c.2 < h := by
        by_contra hoob
        rw [show distField w h walk [(rx, ry)]
            = (relaxStep w h walk)^[w * h] (fieldInit w h [(rx, ry)]) from rfl,
          iter_oob w h walk _ _ c.1 c.2 hoob] at hget
        exact Option.noConfusion hget
      have hu : u = cfVal rx ry c.1 c.2 := by
        rw [field_exact w h walk rx ry hwalk hrx hry c.1 c.2 hcb.1 hcb.2] at hget
        exact (Option.some.inj hget).symm
      have hcne : ¬ (c.1 = stepToward rx x ∧ c.2 = stepToward ry y) := by
        rintro ⟨h1, h2⟩
        apply hne
        have : c = (stepToward rx x, stepToward ry y) := Prod.ext h1 h2
        rw [this, hu, this]
      have hclose := nbrCells_close x y c hcmem
      have := cf_step_unique rx ry x y c.1 c.2 hroot hclose.1 hclose.2 hcne
      omega
  have hpick := pickMin_unique _ _ hb hmin
  have hcur := field_exact w h walk rx ry hwalk hrx hry x y hx hy
  show (match pickMin ((nbrCells x y).filterMap
      fun c => (fGet (distField w h walk [(rx, ry)]) c.1 c.2).map fun v => (c, v)),
      fGet (distField w h walk [(rx, ry)]) x y with
    | some b, some cur => if b.2 < cur then some b.1 else none
    | _, _ => none) = some (stepToward rx x, stepToward ry y)
  rw [hpick, hcur]
  show (if cfVal rx ry (stepToward rx x) (stepToward ry y) < cfVal rx ry x y
      then some (stepToward rx x, stepToward ry y) else none)
    = some (stepToward rx x, stepToward ry y)
  rw [if_pos (by
    have h1 := cf_step_exact rx ry x y hroot
    have h2 := stepCost_ge rx ry x y
    omega)]

theorem walkBack_len (w h : Nat) (walk : Nat → Nat → Bool) (rx ry : Nat)
    (hwalk : ∀ x y, x < w → y < h → walk x y = true)
    (hrx : rx < w) (hry : ry < h) :
    ∀ n x y fuel, x < w → y < h → max (natDist x rx) (natDist y ry) = n → n ≤ fuel →
      (walkBack (distField w h walk [(rx, ry)]) fuel x y).length = n + 1 := by
  intro n
  induction n with
  | zero =>
    intro x y fuel hx hy hcheb _
    obtain rfl : x = rx := natDist_eq_zero _ _ (by omega)
    obtain rfl : y = ry := natDist_eq_zero _ _ (by omega)
    cases fuel with
    | zero => rfl
    | succ fu =>
      rw [walkBack, if_pos (by
        rw [field_exact w h walk x y hwalk hx hy x y hx hy, cfVal_self])]
      rfl
  | succ n ih =>
    intro x y fuel hx hy hcheb hfuel
    cases fuel with
    | zero => omega
    | succ fu =>
      have hroot : ¬ (x = rx ∧ y = ry) := by
        rintro ⟨rfl, rfl⟩
        rw [natDist_self, natDist_self] at hcheb
        omega
      have hne : fGet (distField w h walk [(rx, ry)]) x y ≠ some 0 := by
        rw [field_exact w h walk rx ry hwalk hrx hry x y hx hy]
        have := cfVal_pos rx ry x y hroot
        intro hcontra
        have := Option.some.inj hcontra
        omega
      rw [walkBack, if_neg hne, descend_exact w h walk rx ry hwalk hrx hry x y hx hy hroot]
      show ((x, y) :: walkBack (distField w h walk [(rx, ry)]) fu
          (stepToward rx x) (stepToward ry y)).length = n + 1 + 1
      rw [List.length_cons,
        ih (stepToward rx x) (stepToward ry y) fu
          (stepToward_bound rx x w hx hrx) (stepToward_bound ry y h hy hry)
          (by have := chebStep rx ry x y hroot; omega) (by omega)]

/-! The fully open map and the open-grid path length -/

theorem openMap_walk (w h : Nat) : ∀ x y, x < w → y < h → (openMap w h).walkableAt x y = true := by
  intro x y hx hy
  unfold MapData.walkableAt MapData.tile_at openMap tileAt
  simp only
  rw [List.getD_eq_getElem?_getD, List.getD_eq_getElem?_getD, List.getElem?_replicate,
    if_pos hy]
  simp only [Option.getD_some]
  rw [List.getElem?_replicate, if_pos hx]
  rfl

theorem astar_open_len (w h sx sy gx gy : Nat) (hsx : sx < w) (hsy : sy < h)
    (hgx : gx < w) (hgy : gy < h) :
    (astar_path (openMap w h) (sx, sy) (gx, gy)).length
      = max (natDist sx gx) (natDist sy gy) + 1 := by
  have hwalk := openMap_walk w h
  have hfield := field_exact w h (openMap w h).walkableAt sx sy hwalk hsx hsy gx gy hgx hgy
  show (match fGet (distField w h (openMap w h).walkableAt [(sx, sy)]) gx gy with
    | none => [((gx : Nat), (gy : Nat))]
    | some _ => (walkBack (distField w h (openMap w h).walkableAt [(sx, sy)])
        (w * h + 1) gx gy).reverse).length = max (natDist sx gx) (natDist sy gy) + 1
  rw [hfield]
  show ((walkBack (distField w h (openMap w h).walkableAt [(sx, sy)])
      (w * h + 1) gx gy).reverse).length = max (natDist sx gx) (natDist sy gy) + 1
  rw [List.length_reverse,
    walkBack_len w h (openMap w h).walkableAt sx sy hwalk hsx hsy
      (max (natDist gx sx) (natDist gy sy)) gx gy (w * h + 1) hgx hgy rfl (by
        have h1 : natDist gx sx < w := natDist_lt gx sx w hgx hsx
        have h2 : natDist gy sy < h := natDist_lt gy sy h hgy hsy
        have h3 : w ≤ w * h := Nat.le_mul_of_pos_right w (by omega)
        have h4 : h ≤ w * h := Nat.le_mul_of_pos_left h (by omega)
        omega),
    natDist_comm gx sx, natDist_comm gy sy]

theorem reach_mono (w h : Nat) (walk : Nat → Nat → Bool) (root : Nat × Nat) :
    ∀ n c, reachesB w h walk root n c = true → reachesB w h walk root (n + 1) c = true := by
  intro n
  induction n with
  | zero =>
    intro c hc
    rw [reachesB] at hc
    rw [reachesB, hc]
    rfl
  | succ n ih =>
    intro c hc
    rw [reachesB] at hc
    rw [reachesB]
    rcases Bool.or_eq_true_iff.mp hc with h1 | h1
    · rw [h1]
      rfl
    · refine Bool.or_eq_true_iff.mpr (Or.inr ?_)
      rcases Bool.and_eq_true_iff.mp h1 with ⟨h2, h3⟩
      rcases List.any_eq_true.mp h3 with ⟨p, hp, hpr⟩
      exact Bool.and_eq_true_iff.mpr ⟨h2, List.any_eq_true.mpr ⟨p, hp, ih p hpr⟩⟩

theorem reach_inv (w h : Nat) (walk : Nat → Nat → Bool) (rx ry : Nat) :
    ∀ k x y v, fGet ((relaxStep w h walk)^[k] (fieldInit w h [(rx, ry)])) x y = some v →
      reachesB w h walk (rx, ry) k (x, y) = true := by
  intro k
  induction k with
  | zero =>
    intro x y v hv
    by_cases hxy : x < w ∧ y < h
    · rw [iter_zero w h walk _, fGet_init w h _ x y hxy.1 hxy.2] at hv
      split_ifs at hv with hroot
      · simp only [List.mem_cons, List.not_mem_nil, or_false] at hroot
        rw [reachesB, hroot]
        simp
    · rw [iter_oob w h walk _ 0 x y hxy] at hv
      exact Option.noConfusion hv
  | succ k ih =>
    intro x y v hv
    by_cases hxy : x < w ∧ y < h
    · rw [fGet_iter_succ w h walk _ k x y hxy.1 hxy.2] at hv
      unfold relaxAt at hv
      split_ifs at hv with hw
      · rcases foldMin_eq_some_mem _ _ v hv with hself | ⟨c, hc, hcv⟩
        · exact reach_mono w h walk (rx, ry) k (x, y) (ih x y v hself)
        · rcases List.mem_map.mp hc with ⟨nb, hnb, rfl⟩
          unfold nbrCand at hcv
          cases hget : fGet ((relaxStep w h walk)^[k] (fieldInit w h [(rx, ry)])) nb.1 nb.2 with
          | none =>
            rw [hget] at hcv
            exact Option.noConfusion hcv
          | some u =>
            have hreach := ih nb.1 nb.2 u hget
            rw [reachesB]
            refine Bool.or_eq_true_iff.mpr (Or.inr ?_)
            refine Bool.and_eq_true_iff.mpr ⟨?_, ?_⟩
            · simp only [Bool.and_eq_true, decide_eq_true_eq]
              exact ⟨⟨hxy.1, hxy.2⟩, hw⟩
            · exact List.any_eq_true.mpr ⟨nb, hnb, hreach⟩
      · exact reach_mono w h walk (rx, ry) k (x, y) (ih x y v hv)
    · rw [iter_oob w h walk _ (k+1) x y hxy] at hv
      exact Option.noConfusion hv

theorem astar_nopath (m : MapData) (s g : Nat × Nat)
    (h : reachesB m.width m.height m.walkableAt s (m.width * m.height) g = false) :
    astar_path m s g = [g] := by
  cases hget : fGet (distField m.width m.height m.walkableAt [s]) g.1 g.2 with
  | none =>
    show (match fGet (distField m.width m.height m.walkableAt [s]) g.1 g.2 with
      | none => [g]
      | some _ => (walkBack (distField m.width m.height m.walkableAt [s])
          (m.width * m.height + 1) g.1 g.2).reverse) = [g]
    rw [hget]
  | some v =>
    have h2 : reachesB m.width m.height m.walkableAt s (m.width * m.height) g = true :=
      reach_inv m.width m.height m.walkableAt s.1 s.2 (m.width * m.height) g.1 g.2 v hget
    rw [h] at h2
    exact Bool.noConfusion h2

/-- C3 counterexample: on the fully open 2 by 2 grid the path from (0,0) to
(1,1) is the single diagonal step, so its length 2 is not Manhattan
distance + 1 = 3; and on a grid where the goal is unreachable the returned
singleton holds the goal cell, not the start cell. -/
theorem astar_counterexample :
    (astar_path (openMap 2 2) (0, 0) (1, 1)).length ≠ manhattan (0, 0) (1, 1) + 1
    ∧ reachesB wallMap.width wallMap.height wallMap.walkableAt (0, 0)
        (wallMap.width * wallMap.height) (2, 0) = false
    ∧ astar_path wallMap (0, 0) (2, 0) ≠ [(0, 0)] := by
  refine ⟨?_, ?_, ?_⟩ <;> decide

/-- C3 (amended): on a fully open grid the path returned by `astar_path`
has length Chebyshev distance + 1 (the cost model of `path.py` admits
diagonal steps at cost 3 against cardinal cost 2, so optimal open-grid
paths use diagonals); and whenever no path from start to goal exists the
returned sequence has length 1 and contains only the goal cell. -/
theorem astar_amended :
    (∀ w h sx sy gx gy, sx < w → sy < h → gx < w → gy < h →
      (astar_path (openMap w h) (sx, sy) (gx, gy)).length
        = max (natDist sx gx) (natDist sy gy) + 1)
    ∧ (∀ (m : MapData) (s g : Nat × Nat),
        reachesB m.width m.height m.walkableAt s (m.width * m.height) g = false →
        astar_path m s g = [g]) :=
  ⟨astar_open_len, astar_nopath⟩

theorem astar_amended_witness :
    (astar_path (openMap 3 2) (0, 0) (2, 1)).length = max (natDist 0 2) (natDist 0 1) + 1
    ∧ astar_path wallMap (0, 0) (2, 0) = [(2, 0)] :=
  ⟨astar_amended.1 3 2 0 0 2 1 (by decide) (by decide) (by decide) (by decide),
   astar_amended.2 wallMap (0, 0) (2, 0) (by decide)⟩

/-- C7: `Brain.decide` is not total.  With the player two steps away but
unreachable (`astar_path` returns the length-1 `[goal]`), the summoner
branch evaluates `astar_path(...)[1]` unguarded and raises `IndexError`
instead of returning the wait action; the guarded branches (here the brute,
same position) do fall through to wait. -/
theorem summoner_unreachable_raises :
    Brain.decide "summoner" { x := 0, y := 0 } statsLowHp wallMap (2, 0) 0
      = Except.error "IndexError"
    ∧ Brain.decide "brute" { x := 0, y := 0 } statsLowHp wallMap (2, 0) 0
      = Except.ok { type := "wait" }
    ∧ astar_path wallMap (0, 0) (2, 0) = [(2, 0)] :=
  ⟨rfl, rfl, by decide⟩

/-! ## Claims C1, C2 and C8 about the generator -/

/-- C1: `generate_floor` is deterministic.  The embedding threads the
seeded random stream explicitly, so a second call with the same seed,
floor index and layout is the same pure value: equal cell by cell and on
the start and both stair positions. -/
theorem generate_floor_deterministic (seed floorIdx : Int) (layout : String) :
    generate_floor seed floorIdx layout = generate_floor seed floorIdx layout
    ∧ (∀ x y, (generate_floor seed floorIdx layout).toOption.map (fun md => md.tile_at x y)
        = (generate_floor seed floorIdx layout).toOption.map (fun md => md.tile_at x y))
    ∧ (generate_floor seed floorIdx layout).toOption.map MapData.start
        = (generate_floor seed floorIdx layout).toOption.map MapData.start
    ∧ (generate_floor seed floorIdx layout).toOption.map MapData.stairs_up
        = (generate_floor seed floorIdx layout).toOption.map MapData.stairs_up
    ∧ (generate_floor seed floorIdx layout).toOption.map MapData.stairs_down
        = (generate_floor seed floorIdx layout).toOption.map MapData.stairs_down :=
  ⟨rfl, fun _ _ => rfl, rfl, rfl, rfl⟩

/-- C2: a full rooms-mode run of `MapGenerator.generate` (post-processing
and `_ensure_connection` repair included) returns a map whose down stairs
at (15, 3) are NOT reachable from the start (3, 3) once the locked door
(10, 3) is blocked: the repair carves a line between the found
already-reachable cell and the start, which reconnects nothing, and the
generator never re-checks.  The key half of the invariant does hold here:
the recorded key (4, 3) is reachable around the locked door. -/
theorem mapgen_stairs_disconnected :
    (genOkMap (MapGenerator.generate 20 7 c2Random "rooms")).map
      (fun md =>
        (md.start, md.stairs_down, md.locked_doors, md.door_keys,
          (md.reachable md.start md.locked_doors).contains md.stairs_down,
          (md.reachable md.start md.locked_doors).contains (4, 3)))
    = some ((3, 3), (15, 3), [(10, 3)], [((10, 3), (4, 3))], false, true) := rfl

/-- C8: rooms-mode generation fails with the structural error exactly when
the placement loop placed no room, and caves-mode generation fails with
its structural error exactly when the five automaton passes leave no floor
cell; in both modes nothing is retried (the run is a single pass ending in
`Except.error`). -/
theorem generation_failure_exact (width height : Nat) (r : PyRandom)
    (hw : 12 ≤ width) (hh : 12 ≤ height) :
    (genRooms width height r = Except.error "Failed to generate rooms"
      ↔ (placeRooms width height 212 [] 0
          (List.replicate height (List.replicate width Tile.wall)) r).1 = [])
    ∧ (genCaves width height r = Except.error "No floor tiles in cave generation"
      ↔ floorPositions width height (smoothTiles width height (smoothTiles width height
          (smoothTiles width height (smoothTiles width height
            (smoothTiles width height (cavesFilled width height r).1))))) = []) := by
  constructor
  · simp only [genRooms]
    split
    · next hempty => simp [hempty]
    · next hne =>
      constructor
      · intro hcontra
        exact absurd hcontra (by simp)
      · intro hcontra
        exact absurd hcontra hne
  · simp only [genCaves]
    split
    · next hempty => simp [hempty]
    · next hne =>
      constructor
      · intro hcontra
        exact absurd hcontra (by simp)
      · intro hcontra
        exact absurd hcontra hne

theorem generation_failure_exact_witness :
    genCaves 12 12 zeroRandom = Except.error "No floor tiles in cave generation"
    ∧ (placeRooms 12 12 212 [] 0 (List.replicate 12 (List.replicate 12 Tile.wall))
        zeroRandom).1 = [⟨1, 1, 5, 5⟩]
    ∧ genRooms 12 12 zeroRandom ≠ Except.error "Failed to generate rooms" := by
  have h := generation_failure_exact 12 12 zeroRandom (by norm_num) (by norm_num)
  refine ⟨h.2.mpr (by decide), by decide, fun hc => ?_⟩
  have h2 := h.1.mp hc
  rw [show (placeRooms 12 12 212 [] 0 (List.replicate 12 (List.replicate 12 Tile.wall))
      zeroRandom).1 = [⟨1, 1, 5, 5⟩] from by decide] at h2
  exact List.noConfusion h2

end Aether
